import Mathlib

/-!
Verification of the address-reservation core of the CNI plugins repository
(host-local IPAM disk backend, bridge MAC store, reservation database and
the sticky-allocation orchestrator).

The Go source is shallowly embedded:
* the on-disk per-network directory is a finite association list from file
  name to file content (`FS`);
* Go strings are Lean `String`s; the string helpers the code uses
  (`strings.Split` on one-character separators, `strings.TrimSpace`,
  `strings.Count`, `strings.ReplaceAll`) are re-implemented at the
  character-list level;
* fallible operations return `Except String` values; I/O failures the code
  reacts to explicitly (the owner write and close in `Reserve`, database
  open/read failures) are injected through explicit oracle parameters;
* the embedded database table is a list of records; timestamps are integer
  nanosecond counts.
-/

/-! ## Character-level string utilities (models of the `strings` package) -/

/-- ASCII/Unicode whitespace test used by `strings.TrimSpace`
(restricted to the ASCII whitespace characters). -/
def isWS (c : Char) : Bool :=
  c == ' ' || c == '\t' || c == '\n' || c == '\r' || c == '\x0b' || c == '\x0c'

/-- Drop leading whitespace. -/
def trimLeft (l : List Char) : List Char := l.dropWhile isWS

/-- Drop trailing whitespace. -/
def trimRight (l : List Char) : List Char := (l.reverse.dropWhile isWS).reverse

/-- Model of `strings.TrimSpace` on character lists. -/
def trimSpace (l : List Char) : List Char := trimRight (trimLeft l)

/-- Model of `strings.TrimSpace` on strings. -/
def trimS (s : String) : String := ⟨trimSpace s.data⟩

/-- Model of `strings.Split` with a one-character separator
(every separator in this code base is a single ASCII character). -/
def splitChar (sep : Char) : List Char → List (List Char)
  | [] => [[]]
  | c :: rest =>
    match splitChar sep rest with
    | [] => [[]]
    | g :: gs => if c == sep then [] :: g :: gs else (c :: g) :: gs

/-- `strings.Split` on strings, one-character separator. -/
def splitS (sep : Char) (s : String) : List String :=
  (splitChar sep s.data).map (fun l => (⟨l⟩ : String))

/-- Model of `strings.ReplaceAll(s, ":", "-")` (one-character pattern). -/
def dashed (s : String) : String :=
  ⟨s.data.map (fun c => if c == ':' then '-' else c)⟩

/-- UTF-8 byte length of one character (Go `len` counts bytes). -/
def charBytes (c : Char) : Nat :=
  if c.val < 128 then 1 else if c.val < 2048 then 2 else if c.val < 65536 then 3 else 4

/-- UTF-8 byte length of a string, i.e. Go's `len` on strings. -/
def byteLen (s : String) : Nat := (s.data.map charBytes).sum

/-! ## The flat-file store directory as an association list -/

/-- A per-network data directory: file (base) name to file content. -/
abbrev FS := List (String × String)

/-- Content of a file, if present (first entry with the key wins, as for a
real directory an association list with distinct keys is intended). -/
def fsGet (fs : FS) (k : String) : Option String :=
  (fs.find? (fun e => e.1 == k)).map (fun e => e.2)

/-- Does the file exist? -/
def fsExists (fs : FS) (k : String) : Bool := (fsGet fs k).isSome

/-- Key-membership helper. -/
def fsHasKey (fs : FS) (k : String) : Bool := fs.any (fun e => e.1 == k)

/-- Create or overwrite a file (`ioutil.WriteFile` / a successful
`OpenFile` + write): replace the entry if the name is present, else add it. -/
def fsSet : FS → String → String → FS
  | [], k, v => [(k, v)]
  | e :: rest, k, v => if e.1 == k then (k, v) :: rest else e :: fsSet rest k v

/-- Remove a file (`os.Remove`). -/
def fsRemove (fs : FS) (k : String) : FS := fs.filter (fun e => !(e.1 == k))

/-- Rename a file (`os.Rename`): the target receives the source's content,
the source disappears. -/
def fsRename (fs : FS) (src dst : String) : FS :=
  fsSet (fsRemove fs src) dst ((fsGet fs src).getD "")

/-! ### Association-list lemmas -/

theorem fsGet_set_self (fs : FS) (k v : String) : fsGet (fsSet fs k v) k = some v := by
  induction fs with
  | nil => simp [fsSet, fsGet, List.find?]
  | cons e rest ih =>
    by_cases he : e.1 == k
    · simp [fsSet, fsGet, List.find?, he]
    · simp only [fsSet, he, if_false]
      simpa [fsGet, List.find?, he] using ih

theorem fsGet_set_ne (fs : FS) (k k' v : String) (h : k' ≠ k) :
    fsGet (fsSet fs k v) k' = fsGet fs k' := by
  have hkk : (k == k') = false := by simpa using (Ne.symm h)
  induction fs with
  | nil => simp [fsSet, fsGet, List.find?, hkk]
  | cons e rest ih =>
    by_cases he : e.1 == k
    · have he' : e.1 = k := by simpa using he
      have : (e.1 == k') = false := by simp [he', hkk]
      simp [fsSet, fsGet, List.find?, he, this, hkk]
    · simp only [fsSet, he, if_false]
      by_cases he2 : e.1 == k'
      · simp [fsGet, List.find?, he2]
      · simpa [fsGet, List.find?, he2] using ih

theorem fsGet_remove_self (fs : FS) (k : String) : fsGet (fsRemove fs k) k = none := by
  induction fs with
  | nil => rfl
  | cons e rest ih =>
    by_cases he : e.1 == k
    · simpa [fsRemove, List.filter, he] using ih
    · simp only [fsRemove, List.filter, he, Bool.not_false]
      simpa [fsRemove, fsGet, List.find?, he] using ih

theorem mem_fsSet_of_ne (fs : FS) (k v : String) (e : String × String)
    (hm : e ∈ fs) (hne : e.1 ≠ k) : e ∈ fsSet fs k v := by
  induction fs with
  | nil => cases hm
  | cons e0 rest ih =>
    by_cases he : e0.1 == k
    · simp only [fsSet, he, if_true]
      rcases List.mem_cons.mp hm with h0 | h0
      · exact absurd (show e.1 = k by rw [h0]; simpa using he) hne
      · exact List.mem_cons_of_mem _ h0
    · simp only [fsSet, he, if_false]
      rcases List.mem_cons.mp hm with h0 | h0
      · exact h0 ▸ List.mem_cons_self _ _
      · exact List.mem_cons_of_mem _ (ih h0)

theorem find?_spec {α : Type} {p : α → Bool} :
    ∀ {l : List α} {a : α}, l.find? p = some a → p a = true ∧ a ∈ l := by
  intro l
  induction l with
  | nil => intro a h; simp [List.find?] at h
  | cons x rest ih =>
    intro a h
    by_cases hx : p x
    · simp only [List.find?, hx] at h
      have hxa : x = a := by simpa using h
      subst hxa
      exact ⟨hx, List.mem_cons_self _ _⟩
    · simp only [List.find?, Bool.not_eq_true] at h
      rw [Bool.not_eq_true] at hx
      rw [hx] at h
      rcases ih h with ⟨h1, h2⟩
      exact ⟨h1, List.mem_cons_of_mem _ h2⟩

theorem fsGet_mem (fs : FS) (k v : String) (h : fsGet fs k = some v) : (k, v) ∈ fs := by
  unfold fsGet at h
  rcases hf : fs.find? (fun e => e.1 == k) with _ | e
  · rw [hf] at h; simp at h
  · rw [hf] at h
    rcases find?_spec hf with ⟨hkey, hmem⟩
    have hk : e.1 = k := by simpa using hkey
    have hv : e.2 = v := by simpa using h
    have : e = (k, v) := by
      cases e; simp only at hk hv; simp [hk, hv]
    rwa [this] at hmem

/-! ## `pkg/utils/env_args.go`: `ResolvePodNSAndNameFromEnvArgs` -/

/-- The loop body of `ResolvePodNSAndNameFromEnvArgs`: walk the
`;`-separated pairs, split each on `=`, record the two recognized keys,
fail on a pair that does not split into exactly two parts; after the loop,
fail if the combined byte length of namespace and name exceeds 230.
Returns `(ns, name, error?)` exactly as the Go triple does (note the Go
function returns the partially accumulated `ns`/`name` together with a
pair error, and `("", "")` with a length error). -/
def resolveLoop : List String → String → String → String × String × Option String
  | [], ns, name =>
    if byteLen ns + byteLen name > 230 then
      ("", "", some "ARGS: length of pod ns and name exceed the length limit")
    else (ns, name, none)
  | pair :: rest, ns, name =>
    match splitS '=' pair with
    | [k, v] =>
      let ns' := if k == "K8S_POD_NAMESPACE" then v else ns
      let name' := if k == "K8S_POD_NAME" then v else name
      resolveLoop rest ns' name'
    | _ => (ns, name, some ("ARGS: invalid pair " ++ pair))

/-- Model of `utils.ResolvePodNSAndNameFromEnvArgs`. -/
def ResolvePodNSAndNameFromEnvArgs (envArgs : String) : String × String × Option String :=
  if envArgs == "" then ("", "", none)
  else resolveLoop (splitS ';' envArgs) "" ""

/-! ## `pkg/database/database.go`: records and expiry -/

/-- `database.ReservedIP` (embedding `BaseModel`); timestamps are integer
nanosecond counts, mirroring Go's `time.Time`/`time.Duration` arithmetic. -/
structure ReservedIP where
  dbid : Nat := 0
  ns : String := ""
  name : String := ""
  deleted : Bool := false
  ipv4 : String := ""
  ipv6 : String := ""
  createdAt : Int := 0
  updatedAt : Int := 0
deriving DecidableEq

/-- `database.ReservedMAC` (embedding `BaseModel`). -/
structure ReservedMAC where
  dbid : Nat := 0
  ns : String := ""
  name : String := ""
  deleted : Bool := false
  mac : String := ""
  createdAt : Int := 0
  updatedAt : Int := 0
deriving DecidableEq

/-- Nanoseconds in 24 hours: `24 * time.Hour` as a `time.Duration`. -/
def nanosPerDay : Int := 86400000000000

/-- `database.PurgeExpiredIPs days`: delete every row with
`deleted = true and updated_at < now - days*24h`. The table is the list of
rows; `now` is the current clock reading. -/
def PurgeExpiredIPs (now days : Int) (table : List ReservedIP) : List ReservedIP :=
  table.filter (fun r => !(r.deleted && decide (r.updatedAt < now - days * nanosPerDay)))

/-- `database.PurgeExpiredMACs days`, same shape on the MAC table. -/
def PurgeExpiredMACs (now days : Int) (table : List ReservedMAC) : List ReservedMAC :=
  table.filter (fun r => !(r.deleted && decide (r.updatedAt < now - days * nanosPerDay)))

/-! ## `plugins/ipam/host-local/backend/disk/backend.go`: flat-file store -/

/-- `disk.LineBreak`. -/
def LineBreak : String := "\r\n"

/-- `disk.lastIPFilePrefix`, the marker-file name stem `last_reserved_ip.`. -/
def lastIPFileStem : String := "last_reserved_ip."

/-- Injected I/O outcomes for one `Reserve` call: the owner-content write,
the file close, and the last-reserved-marker write can each fail with an
error message. `none` everywhere is the normal successful run. -/
structure WriteOracle where
  writeErr : Option String := none
  closeErr : Option String := none
  lastErr : Option String := none
deriving DecidableEq

/-- `(*Store).Reserve id ifname ip rangeID` on directory `fs` (non-Windows,
so `GetEscapedPath` is a plain join and the file name is `ip.String()`,
here the address's text form). Exclusive create: an existing file yields
`ok false` with the directory untouched; a failed owner write or close
removes the just-created file and surfaces the error; on success the
owner content is written and the last-reserved marker is updated. -/
def Reserve (fs : FS) (id ifname ip rangeID : String) (wo : WriteOracle) :
    Except String Bool × FS :=
  if fsExists fs ip then (Except.ok false, fs)
  else
    let fs1 := fsSet fs ip ""
    match wo.writeErr with
    | some e => (Except.error e, fsRemove fs1 ip)
    | none =>
      let fs2 := fsSet fs1 ip (trimS id ++ LineBreak ++ ifname)
      match wo.closeErr with
      | some e => (Except.error e, fsRemove fs2 ip)
      | none =>
        match wo.lastErr with
        | some e => (Except.error e, fs2)
        | none => (Except.ok true, fsSet fs2 (lastIPFileStem ++ rangeID) ip)

/-- `(*Store).FindByKey`: walk every file of the directory and report
whether some file's trimmed content equals `matchStr` (the `id`/`ifname`
arguments of the Go function are unused by its body; per-file read errors
are skipped and the walk itself never fails here). -/
def FindByKey (fs : FS) (matchStr : String) : Bool :=
  fs.any (fun e => trimS e.2 == matchStr)

/-- `(*Store).FindByID`: first the new-format match
`trim(id) + LineBreak + ifname`, then the legacy match `trim(id)`. -/
def FindByID (fs : FS) (id ifname : String) : Bool :=
  let found := FindByKey fs (trimS id ++ LineBreak ++ ifname)
  if !found then FindByKey fs (trimS id) else found

/-! ## Address-text parsing (models of `net.ParseIP` / `net.ParseMAC`)

`net` is an external collaborator. `parseIP` models `net.ParseIP` restricted
to IPv4 dotted-quad text (the result is identified with its text form);
IPv6 parsing is not modelled, so theorems that depend on a stored address
parsing take that as a hypothesis. `parseMAC` models `net.ParseMAC`
restricted to six two-hex-digit groups separated uniformly by `:` or `-`,
returning the canonical lower-case colon form (`HardwareAddr.String`). -/

/-- Decimal digit test. -/
def isDigit (c : Char) : Bool := '0' ≤ c && c ≤ '9'

/-- Hexadecimal digit test. -/
def isHexDigit (c : Char) : Bool :=
  ('0' ≤ c && c ≤ '9') || ('a' ≤ c && c ≤ 'f') || ('A' ≤ c && c ≤ 'F')

/-- Value of a decimal digit string. -/
def digitsVal (l : List Char) : Nat := l.foldl (fun a c => a * 10 + (c.toNat - 48)) 0

/-- One dotted-quad component: 1–3 digits, value ≤ 255, no leading zero. -/
def validIPv4Octet (s : String) : Bool :=
  let l := s.data
  decide (1 ≤ l.length) && decide (l.length ≤ 3) && l.all isDigit &&
    decide (digitsVal l ≤ 255) && (decide (l.length = 1) || !(l.head? == some '0'))

/-- Model of `net.ParseIP`, IPv4 fragment (see the section comment). -/
def parseIP (s : String) : Option String :=
  let parts := splitS '.' s
  if decide (parts.length = 4) && parts.all validIPv4Octet then some s else none

/-- `ip.To4() != nil` for an address given in text form: in the modelled
fragment, exactly the dotted-quad texts. -/
def ipIsV4 (s : String) : Bool := (parseIP s).isSome

/-- One two-hex-digit MAC group. -/
def validOctet (s : String) : Bool := decide (s.data.length = 2) && s.data.all isHexDigit

/-- Lower-case a string (hex groups only ever hold ASCII). -/
def lowerHexS (s : String) : String := ⟨s.data.map Char.toLower⟩

/-- Join MAC groups with `:`. -/
def joinColon : List String → String
  | [] => ""
  | [x] => x
  | x :: xs => x ++ ":" ++ joinColon xs

/-- Model of `net.ParseMAC` composed with `HardwareAddr.String` (see the
section comment): accepts six 2-hex-digit groups uniformly separated by
`:` or `-` and yields the canonical lower-case colon form. -/
def parseMAC (s : String) : Option String :=
  let viaSep : Char → Option String := fun sep =>
    let parts := splitS sep s
    if decide (parts.length = 6) && parts.all validOctet then
      some (joinColon (parts.map lowerHexS))
    else none
  match viaSep ':' with
  | some m => some m
  | none => viaSep '-'

/-! ## Glob matching (model of `path/filepath.Glob`)

Every pattern this code builds has the shape
`<literal prefix>*<literal suffix>` (one star). For such a pattern, and
file names inside one directory (no path separator), Go's `filepath.Match`
holds exactly when the name decomposes as `prefix ++ middle ++ suffix`.
Patterns whose literal parts contain glob metacharacters (`*`, `?`, `[`,
`\`) fall outside this fragment — there the model reports an error, which
conservatively stands in for Go's `ErrBadPattern`/different-pattern cases;
all theorems below restrict the identity components to metacharacter-free
strings, where the model is exact. `filepath.Glob` returns the matching
names of the directory (sorted — irrelevant here since only the count and
a sole match are ever used). -/

/-- Does `pre ++ "*" ++ suf` match the name `s`? -/
def starMatch (pre suf s : List Char) : Bool :=
  pre.isPrefixOf s && suf.isSuffixOf (s.drop pre.length)

/-- Names of the directory matched by the pattern `pre*suf`. -/
def globFiles (fs : FS) (pre suf : String) : List String :=
  (fs.filter (fun e => starMatch pre.data suf.data e.1.data)).map (fun e => e.1)

/-- Glob metacharacters in a would-be literal pattern component. -/
def hasMeta (l : List Char) : Bool :=
  l.any (fun c => c == '*' || c == '?' || c == '[' || c == '\\')

/-- Count of `_` in a name (`strings.Count(fName, "_")`). -/
def countU (s : String) : Nat := s.data.count '_'

/-- The shared tail of both `findPodFileName`s: glob for `pre*suf`, accept
only a single match whose name has exactly three underscores, otherwise
report "not found" (empty name) without error. -/
def findCore (fs : FS) (pre suf : String) : Except String String :=
  if hasMeta pre.data || hasMeta suf.data then Except.error "bad glob pattern"
  else
    match globFiles fs pre suf with
    | [f] => if decide (countU f = 3) then Except.ok f else Except.ok ""
    | _ => Except.ok ""

/-! ## Sticky-identity files, IP variant
(`disk/backend.go`: `podFileName`, `resolvePodFileName`,
`findPodFileName`, `HasReservedIP`, `ReservePodInfo`) -/

namespace Disk

/-- `disk.podFileName ip ns name` = `ip_<ip>_<ns>_<name>` (or just `name`
when `ip` or `ns` is empty). -/
def podFileName (ip ns name : String) : String :=
  if !(ip == "") && !(ns == "") then "ip_" ++ ip ++ "_" ++ ns ++ "_" ++ name
  else name

/-- `disk.resolvePodFileName`: split the file name on `_`; exactly four
components yield `(ip, ns, name)`, anything else three empty strings. -/
def resolvePodFileName (fName : String) : String × String × String :=
  match (splitChar '_' fName.data).map (fun l => (⟨l⟩ : String)) with
  | [_, a, b, c] => (a, b, c)
  | _ => ("", "", "")

/-- `disk.findPodFileName`: search by address (`ip_<ip>_*`) when `ip` is
given, else by identity (`ip_*_<ns>_<name>`), else nothing. -/
def findPodFileName (fs : FS) (ip ns name : String) : Except String String :=
  if !(ip == "") then findCore fs ("ip_" ++ ip ++ "_") ""
  else if !(ns == "") && !(name == "") then findCore fs "ip_" ("_" ++ ns ++ "_" ++ name)
  else Except.ok ""

/-- `disk.HasReservedIP`: identity lookup; the second component is the
reserved address (`none` both for "not found" and for the zero `net.IP`). -/
def HasReservedIP (fs : FS) (podNs podName : String) : Bool × Option String :=
  if podName == "" then (false, none)
  else
    match findPodFileName fs "" podNs podName with
    | Except.error _ => (false, none)
    | Except.ok f =>
      if !(f == "") then
        match resolvePodFileName f with
        | (ipStr, ns, name) =>
          if ns == podNs && name == podName then
            match parseIP ipStr with
            | some ip => (true, some ip)
            | none => (false, none)
          else (false, none)
      else (false, none)

/-- `disk.ReservePodInfo`: with `podIPIsExist` the address file's owner
content is rewritten; otherwise a sticky mapping file is created for the
identity, renaming an existing `ip_<ip>_*` file if one is found. File
writes are modelled as succeeding (their error paths return the error
unchanged and no claim exercises them). -/
def ReservePodInfo (fs : FS) (id ifname ip podNs podName : String)
    (podIPIsExist : Bool) : Except String Bool × FS :=
  if podIPIsExist then
    (Except.ok true, fsSet fs ip (trimS id ++ LineBreak ++ ifname))
  else
    if !(podName == "") then
      let target := podFileName ip podNs podName
      match findPodFileName fs ip "" "" with
      | Except.error e => (Except.error e, fs)
      | Except.ok f =>
        if !(f == "") then (Except.ok true, fsRename fs f target)
        else (Except.ok true, fsSet fs target "")
    else (Except.ok true, fs)

end Disk

/-! ## Sticky-identity files, MAC variant (`plugins/main/bridge/store.go`) -/

namespace Bridge

/-- `store.go`'s `deletionTag` tombstone marker. -/
def deletionTag : String := "deleted"

/-- `bridge.podFileName mac ns name` = `mac_<mac ':'→'-'>_<ns>_<name>`
(or just `name` when `mac` or `ns` is empty). -/
def podFileName (mac ns name : String) : String :=
  if !(mac == "") && !(ns == "") then "mac_" ++ dashed mac ++ "_" ++ ns ++ "_" ++ name
  else name

/-- `bridge.resolvePodFileName`. -/
def resolvePodFileName (fName : String) : String × String × String :=
  match (splitChar '_' fName.data).map (fun l => (⟨l⟩ : String)) with
  | [_, a, b, c] => (a, b, c)
  | _ => ("", "", "")

/-- `bridge.findPodFileName`: by MAC (`mac_<mac>_*`, `:` replaced by `-`)
or by identity (`mac_*_<ns>_<name>`). -/
def findPodFileName (fs : FS) (mac ns name : String) : Except String String :=
  if !(mac == "") then findCore fs ("mac_" ++ dashed mac ++ "_") ""
  else if !(ns == "") && !(name == "") then findCore fs "mac_" ("_" ++ ns ++ "_" ++ name)
  else Except.ok ""

/-- `bridge.hasReservedMAC`: identity lookup returning the parsed hardware
address (in canonical text form) or `none`; a parse failure is "not
found", never an error. -/
def hasReservedMAC (fs : FS) (podNS podName : String) : Except String (Option String) :=
  if podName == "" then Except.ok none
  else
    match findPodFileName fs "" podNS podName with
    | Except.error e => Except.error e
    | Except.ok f =>
      if !(f == "") then
        match resolvePodFileName f with
        | (mac, ns, name) =>
          if ns == podNS && name == podName then
            match parseMAC mac with
            | some hw => Except.ok (some hw)
            | none => Except.ok none
          else Except.ok none
      else Except.ok none

/-- `bridge.reservePodInfo`: empty `mac` tombstones the identity's mapping
file; otherwise bind `mac` to the identity, renaming the identity's
existing mapping file when its name differs from the target. File writes
are modelled as succeeding (see `Disk.ReservePodInfo`). -/
def reservePodInfo (fs : FS) (mac podNs podName : String) : Except String Bool × FS :=
  if podName == "" then (Except.ok false, fs)
  else
    if mac == "" then
      match findPodFileName fs "" podNs podName with
      | Except.error e => (Except.error e, fs)
      | Except.ok f =>
        if decide (0 < f.data.length) then (Except.ok true, fsSet fs f deletionTag)
        else (Except.ok true, fs)
    else
      let target := podFileName mac podNs podName
      match findPodFileName fs "" podNs podName with
      | Except.error e => (Except.error e, fs)
      | Except.ok f =>
        if !(f == "") && !(target == f) then (Except.ok true, fsRename fs f target)
        else (Except.ok true, fsSet fs target "")

end Bridge

/-! ## `allocator_ext.go`: sticky orchestration

The database handle is process-global in Go; here one call's database
interactions are injected as oracle values: the `OpenDB` outcome and the
`GetReservedIP` outcome of the lookup phase and of the save phase. The
underlying flat-file allocation `(*IPAllocator).Get` (defined in
`allocator.go`, outside this core) is an external collaborator passed as a
function from the forced candidate address to an allocation result. -/

/-- Outcome of a `db.GetReservedIP` call: a row, gorm's record-not-found,
or another database error. -/
inductive DBFetch where
  | ok (r : ReservedIP)
  | notFound
  | fail (e : String)
deriving DecidableEq

/-- The database-layer outcomes one `GetIP` call can observe. Defaults
describe an empty, healthy database. -/
structure StickyOracle where
  getOpenErr : Option String := none
  getFetch : DBFetch := DBFetch.notFound
  saveOpenErr : Option String := none
  saveFetch : DBFetch := DBFetch.notFound
deriving DecidableEq

/-- `allocator.getIP`: the sticky lookup. Any database failure is logged
and yields no known address; a found row contributes the stored text of
the configured family, parsed (`nil` parse results also yield `none`). -/
def getIP (openErr : Option String) (fetch : DBFetch) (isIPv4 : Bool) : Option String :=
  match openErr with
  | some _ => none
  | none =>
    match fetch with
    | DBFetch.ok r => if isIPv4 then parseIP r.ipv4 else parseIP r.ipv6
    | DBFetch.notFound => none
    | DBFetch.fail _ => none

/-- The record-update step of `allocator.saveIP`: set identity, clear the
tombstone, and write the allocated address into the field of its family. -/
def applySaveIP (r : ReservedIP) (podNS podName ip : String) : ReservedIP :=
  if ipIsV4 ip then
    { r with ns := podNS, name := podName, deleted := false, ipv4 := ip }
  else
    { r with ns := podNS, name := podName, deleted := false, ipv6 := ip }

/-- `allocator.saveIP`: returns the row handed to `db.ReserveIP`, or
`none` when the save is abandoned (empty pod name, failed open, or a
lookup failure other than not-found). `ReserveIP`'s own error is only
logged, so the returned row is unaffected by it; the Go function returns
nothing either way. -/
def saveIP (openErr : Option String) (fetch : DBFetch) (podNS podName ip : String) :
    Option ReservedIP :=
  if podName == "" then none
  else
    match openErr with
    | some _ => none
    | none =>
      match fetch with
      | DBFetch.fail _ => none
      | DBFetch.notFound => some (applySaveIP {} podNS podName ip)
      | DBFetch.ok r => some (applySaveIP r podNS podName ip)

/-- The forced candidate `GetIP` passes to the flat-file allocator: the
sticky address when one was found, else the caller's requested address. -/
def stickyCandidate (requestedIP : Option String) (isIPv4 : Bool)
    (o : StickyOracle) : Option String :=
  match getIP o.getOpenErr o.getFetch isIPv4 with
  | none => requestedIP
  | some k => some k

/-- `(*IPAllocator).GetIP`: resolve the pod identity from the environment
arguments, try the sticky candidate through the external allocator `aGet`,
and on success persist the allocated address. The first component is the
caller-visible result (the allocated address text or the allocation
error); the second is the database row written by `saveIP`, if any. -/
def GetIP (envArgs : String) (requestedIP : Option String) (isIPv4 : Bool)
    (o : StickyOracle) (aGet : Option String → Except String String) :
    Except String String × Option ReservedIP :=
  match ResolvePodNSAndNameFromEnvArgs envArgs with
  | (podNS, podName, _) =>
    if podName == "" then (aGet requestedIP, none)
    else
      match aGet (stickyCandidate requestedIP isIPv4 o) with
      | Except.error e => (Except.error e, none)
      | Except.ok ipStr => (Except.ok ipStr, saveIP o.saveOpenErr o.saveFetch podNS podName ipStr)

/-- The database phase of `allocator.markDeletedIP` (the release path):
tombstone the identity's row; open failures, not-found and other lookup
failures all write nothing and return nothing. -/
def markDeletedIP (podName : String) (openErr : Option String) (fetch : DBFetch) :
    Option ReservedIP :=
  if podName == "" then none
  else
    match openErr with
    | some _ => none
    | none =>
      match fetch with
      | DBFetch.ok r => some { r with deleted := true }
      | DBFetch.notFound => none
      | DBFetch.fail _ => none

/-! ## Helper lemmas for the env-args resolver -/

theorem resolveLoop_ok_len : ∀ (pairs : List String) (ns0 nm0 ns nm : String),
    resolveLoop pairs ns0 nm0 = (ns, nm, none) → byteLen ns + byteLen nm ≤ 230 := by
  intro pairs
  induction pairs with
  | nil =>
    intro ns0 nm0 ns nm h
    by_cases hlen : byteLen ns0 + byteLen nm0 > 230
    · simp [resolveLoop, hlen] at h
    · simp [resolveLoop, hlen] at h
      rcases h with ⟨h1, h2⟩
      rw [← h1, ← h2]
      omega
  | cons p rest ih =>
    intro ns0 nm0 ns nm h
    rcases hsp : splitS '=' p with _ | ⟨k, _ | ⟨v, _ | ⟨w, ws⟩⟩⟩
    · simp [resolveLoop, hsp] at h
    · simp [resolveLoop, hsp] at h
    · simp only [resolveLoop, hsp] at h
      exact ih _ _ _ _ h
    · simp [resolveLoop, hsp] at h

theorem resolveLoop_err_of_badPair : ∀ (pairs : List String) (ns0 nm0 : String),
    (∃ pair ∈ pairs, (splitS '=' pair).length ≠ 2) →
    (resolveLoop pairs ns0 nm0).2.2 ≠ none := by
  intro pairs
  induction pairs with
  | nil =>
    intro ns0 nm0 h
    rcases h with ⟨p, hp, _⟩
    cases hp
  | cons p rest ih =>
    intro ns0 nm0 h
    rcases hsp : splitS '=' p with _ | ⟨k, _ | ⟨v, _ | ⟨w, ws⟩⟩⟩
    · simp [resolveLoop, hsp]
    · simp [resolveLoop, hsp]
    · rcases h with ⟨q, hq, hbad⟩
      rcases List.mem_cons.mp hq with hq0 | hq'
      · rw [hq0] at hbad
        rw [hsp] at hbad
        simp at hbad
      · simp only [resolveLoop, hsp]
        exact ih _ _ ⟨q, hq', hbad⟩
    · simp [resolveLoop, hsp]

/-- C8: `ResolvePodNSAndNameFromEnvArgs` returns empty namespace and name
with no error on empty input; a run that completes without error has
combined namespace+name byte length at most 230 (equivalently, exceeding
230 forces the length-limit error); and when some `;`-separated segment of
a non-empty input does not split on `=` into exactly two parts, an error
is returned. -/
theorem resolvePod_spec (envArgs : String) :
    (envArgs = "" → ResolvePodNSAndNameFromEnvArgs envArgs = ("", "", none))
  ∧ (∀ ns name, ResolvePodNSAndNameFromEnvArgs envArgs = (ns, name, none) →
      byteLen ns + byteLen name ≤ 230)
  ∧ (envArgs ≠ "" → (∃ pair ∈ splitS ';' envArgs, (splitS '=' pair).length ≠ 2) →
      (ResolvePodNSAndNameFromEnvArgs envArgs).2.2 ≠ none) := by
  refine ⟨?_, ?_, ?_⟩
  · intro h
    rw [h]
    rfl
  · intro ns name h
    by_cases he : envArgs == ""
    · rw [ResolvePodNSAndNameFromEnvArgs, if_pos he] at h
      have h1 : ns = "" := by
        have := congrArg (fun t => t.1) h
        simpa using this.symm
      have h2 : name = "" := by
        have := congrArg (fun t => t.2.1) h
        simpa using this.symm
      rw [h1, h2]
      simp [byteLen]
    · rw [ResolvePodNSAndNameFromEnvArgs, if_neg he] at h
      exact resolveLoop_ok_len _ _ _ _ _ h
  · intro hne hex
    have he : (envArgs == "") = false := by simpa using hne
    rw [ResolvePodNSAndNameFromEnvArgs, he]
    simpa using resolveLoop_err_of_badPair _ "" "" hex

/-- Witness for `resolvePod_spec` at concrete inputs. -/
theorem resolvePod_spec_witness :
    ResolvePodNSAndNameFromEnvArgs "" = ("", "", none) ∧
    (ResolvePodNSAndNameFromEnvArgs "K8S_POD_NAME=x;bad").2.2 ≠ none :=
  ⟨(resolvePod_spec "").1 rfl,
   (resolvePod_spec "K8S_POD_NAME=x;bad").2.2 (by decide)
     ⟨"bad", by decide, by decide⟩⟩

/-- C5: a tombstoned row whose `updated_at` lies `N` days in the past is
removed by `purgeExpired(days)` exactly when `days < N`, and a row with
`deleted = false` is never removed, for both the IP and the MAC table. -/
theorem purgeExpired_removes_iff :
    (∀ (now days N : Int) (r : ReservedIP) (table : List ReservedIP),
      r ∈ table → r.deleted = true → r.updatedAt = now - N * nanosPerDay →
      (r ∉ PurgeExpiredIPs now days table ↔ days < N))
  ∧ (∀ (now days : Int) (r : ReservedIP) (table : List ReservedIP),
      r ∈ table → r.deleted = false → r ∈ PurgeExpiredIPs now days table)
  ∧ (∀ (now days N : Int) (r : ReservedMAC) (table : List ReservedMAC),
      r ∈ table → r.deleted = true → r.updatedAt = now - N * nanosPerDay →
      (r ∉ PurgeExpiredMACs now days table ↔ days < N))
  ∧ (∀ (now days : Int) (r : ReservedMAC) (table : List ReservedMAC),
      r ∈ table → r.deleted = false → r ∈ PurgeExpiredMACs now days table) := by
  have hpos : (0 : Int) < nanosPerDay := by norm_num [nanosPerDay]
  have key : ∀ now days N : Int,
      (now - N * nanosPerDay < now - days * nanosPerDay) ↔ days < N := by
    intro now days N
    rw [sub_lt_sub_iff_left]
    exact mul_lt_mul_right hpos
  refine ⟨?_, ?_, ?_, ?_⟩
  · intro now days N r table hmem hdel hupd
    rw [PurgeExpiredIPs]
    rw [List.mem_filter]
    constructor
    · intro hout
      by_contra hlt
      apply hout
      refine ⟨hmem, ?_⟩
      have : ¬ (r.updatedAt < now - days * nanosPerDay) := by
        rw [hupd, key]
        exact hlt
      simp [hdel, this]
    · intro hlt hin
      rcases hin with ⟨-, hkeep⟩
      have : r.updatedAt < now - days * nanosPerDay := by
        rw [hupd, key]
        exact hlt
      simp [hdel, this] at hkeep
  · intro now days r table hmem hdel
    rw [PurgeExpiredIPs, List.mem_filter]
    exact ⟨hmem, by simp [hdel]⟩
  · intro now days N r table hmem hdel hupd
    rw [PurgeExpiredMACs]
    rw [List.mem_filter]
    constructor
    · intro hout
      by_contra hlt
      apply hout
      refine ⟨hmem, ?_⟩
      have : ¬ (r.updatedAt < now - days * nanosPerDay) := by
        rw [hupd, key]
        exact hlt
      simp [hdel, this]
    · intro hlt hin
      rcases hin with ⟨-, hkeep⟩
      have : r.updatedAt < now - days * nanosPerDay := by
        rw [hupd, key]
        exact hlt
      simp [hdel, this] at hkeep
  · intro now days r table hmem hdel
    rw [PurgeExpiredMACs, List.mem_filter]
    exact ⟨hmem, by simp [hdel]⟩

/-- Witness for `purgeExpired_removes_iff`: a tombstoned MAC row aged two
days is purged at a one-day horizon, and a live row of any age survives. -/
theorem purgeExpired_removes_iff_witness :
    ({ deleted := true, updatedAt := 0 - 2 * nanosPerDay } : ReservedMAC) ∉
      PurgeExpiredMACs 0 1 [{ deleted := true, updatedAt := 0 - 2 * nanosPerDay }] ∧
    ({ deleted := false, updatedAt := 0 - 400 * nanosPerDay } : ReservedIP) ∈
      PurgeExpiredIPs 0 1 [{ deleted := false, updatedAt := 0 - 400 * nanosPerDay }] :=
  ⟨(purgeExpired_removes_iff.2.2.1 0 1 2 _ _ (by simp) rfl rfl).mpr (by norm_num),
   purgeExpired_removes_iff.2.1 0 1 _ _ (by simp) rfl⟩

/-! ## Database-failure tolerance of the sticky orchestrator -/

theorem getIP_none_of_dbFail (o : StickyOracle) (fam : Bool)
    (hfail : o.getOpenErr ≠ none ∨ ∃ e, o.getFetch = DBFetch.fail e) :
    getIP o.getOpenErr o.getFetch fam = none := by
  rcases hfail with h | ⟨e, h⟩
  · rcases ho : o.getOpenErr with _ | e0
    · exact absurd ho h
    · simp [getIP, ho]
  · rcases ho : o.getOpenErr with _ | e0
    · simp [getIP, ho, h]
    · simp [getIP, ho]

/-- C3: every database-layer failure (open, lookup) in the sticky
allocation and release paths leaves the caller exactly where an absent
sticky record would: `GetIP`'s caller-visible result with a failing
database equals its result with an empty database, the result never
depends on the save phase's database outcomes, `getIP` yields no known
address, and `saveIP`/`markDeletedIP` write nothing — no conjunct can
surface a database error to the caller. -/
theorem dbFailures_never_propagate :
    (∀ (envArgs : String) (req : Option String) (fam : Bool) (o : StickyOracle)
       (aGet : Option String → Except String String),
      (o.getOpenErr ≠ none ∨ ∃ e, o.getFetch = DBFetch.fail e) →
      (GetIP envArgs req fam o aGet).1 =
        (GetIP envArgs req fam
          { o with getOpenErr := none, getFetch := DBFetch.notFound } aGet).1)
  ∧ (∀ (envArgs : String) (req : Option String) (fam : Bool) (o o2 : StickyOracle)
       (aGet : Option String → Except String String),
      o2.getOpenErr = o.getOpenErr → o2.getFetch = o.getFetch →
      (GetIP envArgs req fam o aGet).1 = (GetIP envArgs req fam o2 aGet).1)
  ∧ (∀ e fetch fam, getIP (some e) fetch fam = getIP none DBFetch.notFound fam)
  ∧ (∀ e fam, getIP none (DBFetch.fail e) fam = getIP none DBFetch.notFound fam)
  ∧ (∀ e fetch podNS podName ip, saveIP (some e) fetch podNS podName ip = none)
  ∧ (∀ e podNS podName ip, saveIP none (DBFetch.fail e) podNS podName ip = none)
  ∧ (∀ podName e fetch, markDeletedIP podName (some e) fetch = none)
  ∧ (∀ podName e, markDeletedIP podName none (DBFetch.fail e) = none) := by
  refine ⟨?_, ?_, ?_, ?_, ?_, ?_, ?_, ?_⟩
  · intro envArgs req fam o aGet hfail
    have h1 : getIP o.getOpenErr o.getFetch fam = none := getIP_none_of_dbFail o fam hfail
    have hc1 : stickyCandidate req fam o = req := by simp [stickyCandidate, h1]
    have hc2 : stickyCandidate req fam
        { o with getOpenErr := none, getFetch := DBFetch.notFound } = req := by
      simp [stickyCandidate, getIP]
    rcases hres : ResolvePodNSAndNameFromEnvArgs envArgs with ⟨ns, rest⟩
    rcases rest with ⟨nm, er⟩
    by_cases hnm : nm == ""
    · simp [GetIP, hres, hnm]
    · simp only [GetIP, hres, hnm, if_false, hc1, hc2, Bool.false_eq_true]
  · intro envArgs req fam o o2 aGet h1 h2
    have hc : stickyCandidate req fam o2 = stickyCandidate req fam o := by
      rw [stickyCandidate, stickyCandidate, h1, h2]
    rcases hres : ResolvePodNSAndNameFromEnvArgs envArgs with ⟨ns, rest⟩
    rcases rest with ⟨nm, er⟩
    by_cases hnm : nm == ""
    · simp [GetIP, hres, hnm]
    · simp only [GetIP, hres, hnm, if_false, hc, Bool.false_eq_true]
      cases aGet (stickyCandidate req fam o) <;> rfl
  · intro e fetch fam
    rfl
  · intro e fam
    rfl
  · intro e fetch podNS podName ip
    by_cases h : podName == "" <;> simp [saveIP, h]
  · intro e podNS podName ip
    by_cases h : podName == "" <;> simp [saveIP, h]
  · intro podName e fetch
    by_cases h : podName == "" <;> simp [markDeletedIP, h]
  · intro podName e
    by_cases h : podName == "" <;> simp [markDeletedIP, h]

/-- Witness for `dbFailures_never_propagate`: with a failing database
open, `GetIP` still returns the flat-file allocator's own result. -/
theorem dbFailures_never_propagate_witness :
    (GetIP "K8S_POD_NAME=pod1" none true
      { getOpenErr := some "disk corrupt", getFetch := DBFetch.fail "io" }
      (fun _ => Except.ok "10.0.0.7")).1 =
    (GetIP "K8S_POD_NAME=pod1" none true {} (fun _ => Except.ok "10.0.0.7")).1 :=
  dbFailures_never_propagate.1 "K8S_POD_NAME=pod1" none true
    { getOpenErr := some "disk corrupt", getFetch := DBFetch.fail "io" }
    (fun _ => Except.ok "10.0.0.7") (Or.inl (by simp))

/-- C9: `saveIP` touches only the address field of the allocated
address's family — saving an IPv4 address preserves the stored IPv6 text
and vice versa, so alternating saves retain both addresses. -/
theorem saveIP_updates_only_matching_family :
    (∀ r podNS podName ip, ipIsV4 ip = true →
      (applySaveIP r podNS podName ip).ipv6 = r.ipv6)
  ∧ (∀ r podNS podName ip, ipIsV4 ip = false →
      (applySaveIP r podNS podName ip).ipv4 = r.ipv4)
  ∧ (∀ r podNS podName a b, ipIsV4 a = true → ipIsV4 b = false →
      (applySaveIP (applySaveIP r podNS podName a) podNS podName b).ipv4 = a ∧
      (applySaveIP (applySaveIP r podNS podName a) podNS podName b).ipv6 = b)
  ∧ (∀ r podNS podName ip, podName ≠ "" →
      saveIP none (DBFetch.ok r) podNS podName ip =
        some (applySaveIP r podNS podName ip)) := by
  refine ⟨?_, ?_, ?_, ?_⟩
  · intro r podNS podName ip h
    simp [applySaveIP, h]
  · intro r podNS podName ip h
    simp [applySaveIP, h]
  · intro r podNS podName a b ha hb
    constructor
    · simp [applySaveIP, ha, hb]
    · simp [applySaveIP, ha, hb]
  · intro r podNS podName ip h
    have h' : (podName == "") = false := by simpa using h
    simp [saveIP, h']

/-- Witness for `saveIP_updates_only_matching_family`: alternating a
dual-stack identity's saves keeps both addresses. -/
theorem saveIP_updates_only_matching_family_witness :
    (applySaveIP (applySaveIP {} "ns1" "pod1" "10.0.0.3") "ns1" "pod1" "fd00::3").ipv4
      = "10.0.0.3" ∧
    (applySaveIP (applySaveIP {} "ns1" "pod1" "10.0.0.3") "ns1" "pod1" "fd00::3").ipv6
      = "fd00::3" :=
  saveIP_updates_only_matching_family.2.2.1 {} "ns1" "pod1" "10.0.0.3" "fd00::3"
    (by decide) (by decide)

/-! ## `GetIP` and the forced sticky candidate -/

/-- Counterexample to the claim that a failed sticky-forced allocation
falls back to an ordinary search: the database holds `10.0.0.9` for the
identity, the allocator rejects the forced candidate but would succeed on
an unconstrained search (`none ↦ ok "10.0.0.5"`), yet `GetIP` returns the
allocation failure. -/
theorem getIP_no_fallback_counterexample :
    (GetIP "K8S_POD_NAMESPACE=ns1;K8S_POD_NAME=pod1" none true
      { getFetch := DBFetch.ok { ipv4 := "10.0.0.9" } }
      (fun c => match c with
        | some _ => Except.error "address taken"
        | none => Except.ok "10.0.0.5")).1 = Except.error "address taken" := by
  rfl

/-- C2 (amended): when the allocation attempt with the forced candidate
(the sticky address when one was found, else the requested address) fails,
`GetIP` logs and returns that allocation error unchanged — it performs no
fallback to an ordinary non-sticky search. -/
theorem getIP_propagates_forced_failure (envArgs : String) (req : Option String)
    (fam : Bool) (o : StickyOracle) (aGet : Option String → Except String String)
    (e : String)
    (hname : (ResolvePodNSAndNameFromEnvArgs envArgs).2.1 ≠ "")
    (hfail : aGet (stickyCandidate req fam o) = Except.error e) :
    (GetIP envArgs req fam o aGet).1 = Except.error e := by
  rcases hres : ResolvePodNSAndNameFromEnvArgs envArgs with ⟨ns, rest⟩
  rcases rest with ⟨nm, er⟩
  have hnm : (nm == "") = false := by
    rw [hres] at hname
    simpa using hname
  simp [GetIP, hres, hnm, hfail]

/-- Witness for `getIP_propagates_forced_failure`. -/
theorem getIP_propagates_forced_failure_witness :
    (GetIP "K8S_POD_NAME=pod2" none true {}
      (fun _ => Except.error "no addresses left")).1 =
      Except.error "no addresses left" :=
  getIP_propagates_forced_failure "K8S_POD_NAME=pod2" none true {}
    (fun _ => Except.error "no addresses left") "no addresses left" (by decide) rfl

/-! ## `Reserve`: exclusivity and failure cleanup -/

theorem reserve_success_spec {fs fs2 : FS} {id ifname ip rangeID : String}
    {wo : WriteOracle}
    (h : Reserve fs id ifname ip rangeID wo = (Except.ok true, fs2)) :
    fsExists fs ip = false ∧
    fs2 = fsSet (fsSet (fsSet fs ip "") ip (trimS id ++ LineBreak ++ ifname))
            (lastIPFileStem ++ rangeID) ip := by
  by_cases hex : fsExists fs ip
  · simp [Reserve, hex] at h
  · refine ⟨by simpa using hex, ?_⟩
    rcases hw : wo.writeErr with _ | e
    · rcases hc : wo.closeErr with _ | e
      · rcases hl : wo.lastErr with _ | e
        · simp [Reserve, hex, hw, hc, hl] at h
          exact h.symm
        · simp [Reserve, hex, hw, hc, hl] at h
      · simp [Reserve, hex, hw, hc] at h
    · simp [Reserve, hex, hw] at h

/-- C1: after a successful `Reserve` of an address, a second `Reserve` of
the same address — any owner, interface, range, any write outcomes —
returns `ok false` (address taken, no error) and leaves the directory,
hence the reservation file's recorded owner id and interface name,
unchanged; that content is the first call's `trim(id) + LineBreak +
ifname` (for address strings distinct from the internal last-reserved
marker name, as every real IP text is). -/
theorem reserve_second_call_noop (fs fs2 : FS) (id ifname ip rangeID : String)
    (id2 ifname2 rangeID2 : String) (wo wo2 : WriteOracle)
    (h : Reserve fs id ifname ip rangeID wo = (Except.ok true, fs2)) :
    Reserve fs2 id2 ifname2 ip rangeID2 wo2 = (Except.ok false, fs2) ∧
    (ip ≠ lastIPFileStem ++ rangeID →
      fsGet fs2 ip = some (trimS id ++ LineBreak ++ ifname)) := by
  rcases reserve_success_spec h with ⟨hex, hfs2⟩
  have hexists : fsExists fs2 ip = true := by
    by_cases hipl : ip = lastIPFileStem ++ rangeID
    · rw [hfs2, ← hipl]
      simp [fsExists, fsGet_set_self]
    · rw [hfs2, fsExists, fsGet_set_ne _ _ _ _ hipl, fsGet_set_self]
      rfl
  constructor
  · simp [Reserve, hexists]
  · intro hipl
    rw [hfs2, fsGet_set_ne _ _ _ _ hipl, fsGet_set_self]

/-- Witness for `reserve_second_call_noop` at concrete inputs. -/
theorem reserve_second_call_noop_witness :
    Reserve (Reserve [] "cid1" "eth0" "10.1.2.3" "0" {}).2 "cid2" "eth1"
        "10.1.2.3" "1" {} =
      (Except.ok false, (Reserve [] "cid1" "eth0" "10.1.2.3" "0" {}).2) ∧
    fsGet (Reserve [] "cid1" "eth0" "10.1.2.3" "0" {}).2 "10.1.2.3" =
      some ("cid1" ++ LineBreak ++ "eth0") := by
  have h := reserve_second_call_noop [] (Reserve [] "cid1" "eth0" "10.1.2.3" "0" {}).2
    "cid1" "eth0" "10.1.2.3" "0" "cid2" "eth1" "1" {} {} rfl
  exact ⟨h.1, by rw [h.2 (by decide)]; rfl⟩

/-- C6: when the exclusive create succeeds but the owner-content write or
the close fails, `Reserve` surfaces that error and the just-created file
has already been removed — no partially written reservation file remains. -/
theorem reserve_failed_write_leaves_no_file (fs : FS) (id ifname ip rangeID : String)
    (wo : WriteOracle) (e : String)
    (hfree : fsExists fs ip = false)
    (herr : wo.writeErr = some e ∨ (wo.writeErr = none ∧ wo.closeErr = some e)) :
    (Reserve fs id ifname ip rangeID wo).1 = Except.error e ∧
    fsGet (Reserve fs id ifname ip rangeID wo).2 ip = none := by
  rcases herr with hw | ⟨hw, hc⟩
  · simp [Reserve, hfree, hw, fsGet_remove_self]
  · simp [Reserve, hfree, hw, hc, fsGet_remove_self]

/-- Witness for `reserve_failed_write_leaves_no_file`. -/
theorem reserve_failed_write_leaves_no_file_witness :
    (Reserve [] "cid1" "eth0" "10.1.2.3" "0" { closeErr := some "disk full" }).1 =
      Except.error "disk full" ∧
    fsGet (Reserve [] "cid1" "eth0" "10.1.2.3" "0"
      { closeErr := some "disk full" }).2 "10.1.2.3" = none :=
  reserve_failed_write_leaves_no_file [] "cid1" "eth0" "10.1.2.3" "0"
    { closeErr := some "disk full" } "disk full" (by decide) (Or.inr ⟨rfl, rfl⟩)

/-! ## Whitespace-trimming lemmas for the owner-content round trip -/

theorem dropWhile_append_all {p : Char → Bool} (a b : List Char)
    (h : ∀ c ∈ a, p c = true) : (a ++ b).dropWhile p = b.dropWhile p := by
  induction a with
  | nil => rfl
  | cons x rest ih =>
    have hx : p x = true := h x (List.mem_cons_self _ _)
    simp only [List.cons_append, List.dropWhile, hx]
    exact ih (fun c hc => h c (List.mem_cons_of_mem _ hc))

theorem dropWhile_head_false {p : Char → Bool} :
    ∀ (l : List Char) (c : Char) (r : List Char),
      l.dropWhile p = c :: r → p c = false := by
  intro l
  induction l with
  | nil => intro c r h; simp [List.dropWhile] at h
  | cons x rest ih =>
    intro c r h
    by_cases hx : p x
    · simp only [List.dropWhile, hx] at h
      exact ih c r h
    · rw [Bool.not_eq_true] at hx
      simp only [List.dropWhile, hx] at h
      injection h with h1 h2
      rw [← h1]
      exact hx

theorem dropWhile_suffix {p : Char → Bool} (l : List Char) :
    ∃ pre, pre ++ l.dropWhile p = l := by
  induction l with
  | nil => exact ⟨[], rfl⟩
  | cons x rest ih =>
    by_cases hx : p x
    · rcases ih with ⟨pre, hp⟩
      refine ⟨x :: pre, ?_⟩
      simp only [List.dropWhile, hx, List.cons_append, hp]
    · rw [Bool.not_eq_true] at hx
      exact ⟨[], by simp [List.dropWhile, hx]⟩

theorem trimRight_prefix_self (l : List Char) : ∃ t, trimRight l ++ t = l := by
  rcases dropWhile_suffix (p := isWS) l.reverse with ⟨pre, hp⟩
  refine ⟨pre.reverse, ?_⟩
  have := congrArg List.reverse hp
  rw [List.reverse_append, List.reverse_reverse] at this
  exact (by rw [trimRight]; exact this)

theorem trimSpace_head_false (l : List Char) (c : Char) (r : List Char)
    (h : trimSpace l = c :: r) : isWS c = false := by
  rcases trimRight_prefix_self (trimLeft l) with ⟨t, ht⟩
  rw [trimSpace] at h
  rw [h] at ht
  refine dropWhile_head_false (p := isWS) l c (r ++ t) ?_
  rw [show l.dropWhile isWS = trimLeft l from rfl, ← ht]
  simp

theorem trimSpace_last_false (l : List Char) (c : Char) (r : List Char)
    (h : (trimSpace l).reverse = c :: r) : isWS c = false := by
  rw [trimSpace, trimRight, List.reverse_reverse] at h
  exact dropWhile_head_false _ _ _ h

/-- The two ways the stored owner line `tid ++ "\r\n" ++ ifn` trims, for a
trimmed nonempty `tid`: it is left intact when `ifn` is nonempty with no
trailing whitespace, and collapses to `tid` when `ifn` is all whitespace. -/
theorem trimSpace_owner_line (tid ifn : List Char)
    (hhead : ∀ c r, tid = c :: r → isWS c = false)
    (hlast : ∀ c r, tid.reverse = c :: r → isWS c = false)
    (htid : tid ≠ []) :
    ((ifn ≠ [] ∧ trimRight ifn = ifn) →
      trimSpace (tid ++ '\r' :: '\n' :: ifn) = tid ++ '\r' :: '\n' :: ifn)
  ∧ ((∀ c ∈ ifn, isWS c = true) → trimSpace (tid ++ '\r' :: '\n' :: ifn) = tid) := by
  obtain ⟨c, t, hct⟩ : ∃ c t, tid = c :: t := by
    cases tid with
    | nil => exact absurd rfl htid
    | cons x xs => exact ⟨x, xs, rfl⟩
  have hhc : isWS c = false := hhead c t hct
  have hTL : ∀ rest : List Char, trimLeft (tid ++ rest) = tid ++ rest := by
    intro rest
    rw [hct]
    simp [trimLeft, List.dropWhile, hhc]
  obtain ⟨c2, t2, hct2⟩ : ∃ c2 t2, tid.reverse = c2 :: t2 := by
    cases htr : tid.reverse with
    | nil => exact absurd (by simpa using congrArg List.reverse htr) htid
    | cons x xs => exact ⟨x, xs, rfl⟩
  have hhc2 : isWS c2 = false := hlast c2 t2 hct2
  have hrev : (tid ++ '\r' :: '\n' :: ifn).reverse
      = ifn.reverse ++ '\n' :: '\r' :: tid.reverse := by
    simp
  constructor
  · rintro ⟨hne, hright⟩
    obtain ⟨c3, t3, hct3⟩ : ∃ c3 t3, ifn.reverse = c3 :: t3 := by
      cases htr : ifn.reverse with
      | nil => exact absurd (by simpa using congrArg List.reverse htr) hne
      | cons x xs => exact ⟨x, xs, rfl⟩
    have hdw : ifn.reverse.dropWhile isWS = ifn.reverse := by
      have h0 := congrArg List.reverse hright
      rw [trimRight, List.reverse_reverse] at h0
      exact h0
    have hhc3 : isWS c3 = false := by
      refine dropWhile_head_false (p := isWS) ifn.reverse c3 t3 ?_
      rw [hdw]
      exact hct3
    have hstay : ((tid ++ '\r' :: '\n' :: ifn).reverse).dropWhile isWS
        = (tid ++ '\r' :: '\n' :: ifn).reverse := by
      rw [hrev, hct3]
      simp [List.dropWhile, hhc3]
    rw [trimSpace, hTL, trimRight, hstay, List.reverse_reverse]
  · intro hws
    have hcons : ∀ (a : Char) (l : List Char),
        (a :: l).dropWhile isWS = if isWS a then l.dropWhile isWS else a :: l := by
      intro a l
      by_cases ha : isWS a <;> simp [List.dropWhile, ha]
    have hstay : ((tid ++ '\r' :: '\n' :: ifn).reverse).dropWhile isWS = tid.reverse := by
      rw [hrev]
      rw [dropWhile_append_all _ _ (fun c hc => hws c (List.mem_reverse.mp hc))]
      rw [hcons, if_pos (show isWS '\n' = true from rfl)]
      rw [hcons, if_pos (show isWS '\r' = true from rfl)]
      rw [hct2, hcons, if_neg (by rw [hhc2]; exact Bool.false_ne_true)]
    rw [trimSpace, hTL, trimRight, hstay, List.reverse_reverse]

/-! ## `Reserve` / `FindByID` round trip -/

theorem data_append (a b : String) : (a ++ b).data = a.data ++ b.data := rfl

/-- Counterexample to the unrestricted `Reserve`/`FindByID` round trip:
an interface name with a trailing blank (the stored content is trimmed on
read but the match string is not), and a whitespace-only owner id (whose
content line starts with the line break that trimming removes), are both
successfully reserved yet not found. -/
theorem findByID_counterexample :
    FindByID (Reserve [] "abc" "eth0 " "10.0.0.2" "0" {}).2 "abc" "eth0 " = false ∧
    FindByID (Reserve [] "   " "eth0" "10.0.0.2" "0" {}).2 "   " "eth0" = false := by
  constructor
  · rfl
  · rfl

/-- C10 (amended): after a successful `Reserve id ifname ip rangeID`,
`FindByID id ifname` returns true for every owner id whose trimmed form is
non-empty (leading and trailing whitespace in the id are fine) and every
interface name that either has no trailing whitespace or is entirely
whitespace (the legacy id-only match covers the latter) — for address
strings distinct from the internal last-reserved marker name, as every
real IP text is. -/
theorem reserve_then_findByID (fs fs2 : FS) (id ifname ip rangeID : String)
    (wo : WriteOracle)
    (h : Reserve fs id ifname ip rangeID wo = (Except.ok true, fs2))
    (hid : trimS id ≠ "")
    (hif : (ifname.data ≠ [] ∧ trimRight ifname.data = ifname.data) ∨
           (∀ c ∈ ifname.data, isWS c = true))
    (hip : ip ≠ lastIPFileStem ++ rangeID) :
    FindByID fs2 id ifname = true := by
  rcases reserve_success_spec h with ⟨hex, hfs2⟩
  have hget : fsGet fs2 ip = some (trimS id ++ LineBreak ++ ifname) := by
    rw [hfs2, fsGet_set_ne _ _ _ _ hip, fsGet_set_self]
  have hmem : (ip, trimS id ++ LineBreak ++ ifname) ∈ fs2 := fsGet_mem _ _ _ hget
  have hCdata : (trimS id ++ LineBreak ++ ifname).data
      = trimSpace id.data ++ '\r' :: '\n' :: ifname.data := by
    rw [data_append, data_append]
    rw [show LineBreak.data = ['\r', '\n'] from rfl]
    rw [List.append_assoc]
    rfl
  have htid : trimSpace id.data ≠ [] := by
    intro hh
    apply hid
    show trimS id = ""
    rw [trimS, hh]
  have hhead : ∀ c r, trimSpace id.data = c :: r → isWS c = false :=
    fun c r hcr => trimSpace_head_false id.data c r hcr
  have hlast : ∀ c r, (trimSpace id.data).reverse = c :: r → isWS c = false :=
    fun c r hcr => trimSpace_last_false id.data c r hcr
  have hline := trimSpace_owner_line (trimSpace id.data) ifname.data hhead hlast htid
  have hFind : FindByID fs2 id ifname
      = (if !(FindByKey fs2 (trimS id ++ LineBreak ++ ifname)) then
          FindByKey fs2 (trimS id)
         else FindByKey fs2 (trimS id ++ LineBreak ++ ifname)) := rfl
  rcases hif with ⟨hne, hr⟩ | hws
  · have htrim : trimS (trimS id ++ LineBreak ++ ifname) = trimS id ++ LineBreak ++ ifname := by
      rw [trimS, hCdata, hline.1 ⟨hne, hr⟩, ← hCdata]
    have hfound : FindByKey fs2 (trimS id ++ LineBreak ++ ifname) = true := by
      rw [FindByKey, List.any_eq_true]
      exact ⟨(ip, trimS id ++ LineBreak ++ ifname), hmem, by simp [htrim]⟩
    rw [hFind, hfound]
    rfl
  · have htrim : trimS (trimS id ++ LineBreak ++ ifname) = trimS id := by
      rw [trimS, hCdata, hline.2 hws]
      rfl
    have hfound : FindByKey fs2 (trimS id) = true := by
      rw [FindByKey, List.any_eq_true]
      exact ⟨(ip, trimS id ++ LineBreak ++ ifname), hmem, by simp [htrim]⟩
    rw [hFind]
    by_cases hb : FindByKey fs2 (trimS id ++ LineBreak ++ ifname) = true
    · rw [hb]
      rfl
    · rw [Bool.not_eq_true] at hb
      rw [hb]
      simpa using hfound

/-- Witness for `reserve_then_findByID`: an id with surrounding blanks is
reserved and found again. -/
theorem reserve_then_findByID_witness :
    FindByID (Reserve [] " cid1 " "eth0" "10.0.0.2" "0" {}).2 " cid1 " "eth0" = true :=
  reserve_then_findByID [] (Reserve [] " cid1 " "eth0" "10.0.0.2" "0" {}).2
    " cid1 " "eth0" "10.0.0.2" "0" {} rfl (by decide)
    (Or.inl ⟨by decide, by decide⟩) (by decide)

/-! ## Split, count and glob lemmas for the sticky file names -/

theorem splitChar_ne_nil (sep : Char) (l : List Char) : splitChar sep l ≠ [] := by
  cases l with
  | nil => simp [splitChar]
  | cons c rest =>
    simp only [splitChar]
    rcases h : splitChar sep rest with _ | ⟨g, gs⟩
    · simp
    · by_cases hc : c == sep <;> simp [hc]

theorem splitChar_no_sep (sep : Char) (l : List Char)
    (h : ∀ c ∈ l, (c == sep) = false) : splitChar sep l = [l] := by
  induction l with
  | nil => rfl
  | cons c rest ih =>
    have hc : (c == sep) = false := h c (List.mem_cons_self _ _)
    have hr := ih (fun c2 hc2 => h c2 (List.mem_cons_of_mem _ hc2))
    simp [splitChar, hr, hc]

theorem splitChar_cons_sep (sep : Char) (a b : List Char)
    (ha : ∀ c ∈ a, (c == sep) = false) :
    splitChar sep (a ++ sep :: b) = a :: splitChar sep b := by
  induction a with
  | nil =>
    simp only [List.nil_append]
    rcases h : splitChar sep b with _ | ⟨g, gs⟩
    · exact absurd h (splitChar_ne_nil sep b)
    · simp [splitChar, h]
  | cons x a' ih =>
    have hx : (x == sep) = false := ha x (List.mem_cons_self _ _)
    have hr := ih (fun c hc => ha c (List.mem_cons_of_mem _ hc))
    simp [splitChar, List.cons_append, hr, hx]

theorem no_of_count_zero {l : List Char} {a : Char} (h : l.count a = 0) :
    ∀ c ∈ l, (c == a) = false := by
  intro c hc
  by_contra hb
  rw [Bool.not_eq_false] at hb
  have hca : c = a := by simpa using hb
  rw [hca] at hc
  exact absurd hc (List.count_eq_zero.mp h)

theorem count_zero_of_no {l : List Char} {a : Char} (h : ∀ c ∈ l, (c == a) = false) :
    l.count a = 0 :=
  List.count_eq_zero.mpr (fun hmem => by simpa using h a hmem)

theorem map_eq_singleton {α β : Type} (f : α → β) (l : List α) (b : β)
    (h : l.map f = [b]) : ∃ a, l = [a] ∧ f a = b := by
  cases l with
  | nil => simp at h
  | cons x rest =>
    simp only [List.map_cons] at h
    injection h with h1 h2
    have hr : rest = [] := List.map_eq_nil.mp h2
    exact ⟨x, by rw [hr], h1⟩

theorem isPrefixOf_append_self {α : Type} [BEq α] [LawfulBEq α] :
    ∀ (a rest : List α), a.isPrefixOf (a ++ rest) = true := by
  intro a
  induction a with
  | nil => intro rest; simp [List.isPrefixOf]
  | cons x a' ih =>
    intro rest
    simp [List.isPrefixOf, ih]

theorem isSuffixOf_append_self {α : Type} [BEq α] [LawfulBEq α] (pre suf : List α) :
    suf.isSuffixOf (pre ++ suf) = true := by
  rw [List.isSuffixOf, List.reverse_append]
  exact isPrefixOf_append_self _ _

theorem starMatch_decomp (pre mid suf : List Char) :
    starMatch pre suf (pre ++ mid ++ suf) = true := by
  rw [starMatch]
  have h1 : pre.isPrefixOf (pre ++ mid ++ suf) = true := by
    rw [List.append_assoc]
    exact isPrefixOf_append_self _ _
  have h2 : (pre ++ mid ++ suf).drop pre.length = mid ++ suf := by
    rw [List.append_assoc]
    exact List.drop_left _ _
  rw [h1, h2, isSuffixOf_append_self]
  rfl

theorem prefix_pattern_matches (pre rest : List Char) :
    starMatch pre [] (pre ++ rest) = true := by
  have h := starMatch_decomp pre rest []
  simpa using h

theorem fsSet_append_absent (fs : FS) (k v : String)
    (h : ∀ e ∈ fs, (e.1 == k) = false) : fsSet fs k v = fs ++ [(k, v)] := by
  induction fs with
  | nil => rfl
  | cons e rest ih =>
    have he : (e.1 == k) = false := h e (List.mem_cons_self _ _)
    simp only [fsSet, he, Bool.false_eq_true, if_false, List.cons_append]
    rw [ih (fun e2 h2 => h e2 (List.mem_cons_of_mem _ h2))]

theorem globFiles_append (fs1 fs2 : FS) (pre suf : String) :
    globFiles (fs1 ++ fs2) pre suf = globFiles fs1 pre suf ++ globFiles fs2 pre suf := by
  simp [globFiles, List.filter_append]

theorem globFiles_nil_filter (fs : FS) (pre suf : String)
    (h : globFiles fs pre suf = []) :
    ∀ e ∈ fs, starMatch pre.data suf.data e.1.data = false := by
  intro e he
  by_contra hs
  rw [Bool.not_eq_false] at hs
  have hmem : e ∈ fs.filter (fun e => starMatch pre.data suf.data e.1.data) :=
    List.mem_filter.mpr ⟨he, hs⟩
  rw [globFiles, List.map_eq_nil] at h
  rw [h] at hmem
  cases hmem

theorem globFiles_singleton_filter (fs : FS) (pre suf m : String)
    (h : globFiles fs pre suf = [m]) :
    ∃ e0 : String × String,
      fs.filter (fun e => starMatch pre.data suf.data e.1.data) = [e0] ∧ e0.1 = m :=
  map_eq_singleton _ _ _ h

theorem hasMeta_append (a b : List Char) : hasMeta (a ++ b) = (hasMeta a || hasMeta b) := by
  simp [hasMeta, List.any_append]

theorem splitChar_joined (tag : List Char) (mid ns name : String)
    (htag : ∀ c ∈ tag, (c == '_') = false)
    (hmid : mid.data.count '_' = 0) (hns : ns.data.count '_' = 0)
    (hnm : name.data.count '_' = 0) :
    splitChar '_' (tag ++ '_' :: (mid.data ++ '_' :: (ns.data ++ '_' :: name.data)))
      = [tag, mid.data, ns.data, name.data] := by
  rw [splitChar_cons_sep _ _ _ htag]
  rw [splitChar_cons_sep _ _ _ (no_of_count_zero hmid)]
  rw [splitChar_cons_sep _ _ _ (no_of_count_zero hns)]
  rw [splitChar_no_sep _ _ (no_of_count_zero hnm)]

theorem count_joined (tag : List Char) (mid ns name : String)
    (htag : ∀ c ∈ tag, (c == '_') = false)
    (hmid : mid.data.count '_' = 0) (hns : ns.data.count '_' = 0)
    (hnm : name.data.count '_' = 0) :
    (tag ++ '_' :: (mid.data ++ '_' :: (ns.data ++ '_' :: name.data))).count '_' = 3 := by
  simp [List.count_append, List.count_cons, count_zero_of_no htag, hmid, hns, hnm]

theorem ident_suffix_data (ns name : String) :
    ("_" ++ ns ++ "_" ++ name).data = '_' :: (ns.data ++ '_' :: name.data) := by
  have h2 : ("_" : String).data = ['_'] := rfl
  simp [data_append, h2]

theorem bridge_target_data (m ns name : String) :
    ("mac_" ++ m ++ "_" ++ ns ++ "_" ++ name).data
      = ("mac" : String).data ++ '_' :: (m.data ++ '_' :: (ns.data ++ '_' :: name.data)) := by
  have h1 : ("mac_" : String).data = ['m', 'a', 'c', '_'] := rfl
  have h2 : ("_" : String).data = ['_'] := rfl
  have h3 : ("mac" : String).data = ['m', 'a', 'c'] := rfl
  simp [data_append, h1, h2, h3]

theorem disk_target_data (m ns name : String) :
    ("ip_" ++ m ++ "_" ++ ns ++ "_" ++ name).data
      = ("ip" : String).data ++ '_' :: (m.data ++ '_' :: (ns.data ++ '_' :: name.data)) := by
  have h1 : ("ip_" : String).data = ['i', 'p', '_'] := rfl
  have h2 : ("_" : String).data = ['_'] := rfl
  have h3 : ("ip" : String).data = ['i', 'p'] := rfl
  simp [data_append, h1, h2, h3]

theorem bridge_target_matches (m ns name : String) :
    starMatch ("mac_" : String).data ("_" ++ ns ++ "_" ++ name).data
      ("mac_" ++ m ++ "_" ++ ns ++ "_" ++ name).data = true := by
  have hd : ("mac_" ++ m ++ "_" ++ ns ++ "_" ++ name).data
      = (("mac_" : String).data ++ m.data) ++ ("_" ++ ns ++ "_" ++ name).data := by
    have h1 : ("mac_" : String).data = ['m', 'a', 'c', '_'] := rfl
    have h2 : ("_" : String).data = ['_'] := rfl
    simp [data_append, h1, h2]
  rw [hd]
  exact starMatch_decomp _ _ _

theorem disk_target_matches (m ns name : String) :
    starMatch ("ip_" : String).data ("_" ++ ns ++ "_" ++ name).data
      ("ip_" ++ m ++ "_" ++ ns ++ "_" ++ name).data = true := by
  have hd : ("ip_" ++ m ++ "_" ++ ns ++ "_" ++ name).data
      = (("ip_" : String).data ++ m.data) ++ ("_" ++ ns ++ "_" ++ name).data := by
    have h1 : ("ip_" : String).data = ['i', 'p', '_'] := rfl
    have h2 : ("_" : String).data = ['_'] := rfl
    simp [data_append, h1, h2]
  rw [hd]
  exact starMatch_decomp _ _ _

theorem disk_addr_pattern_matches (m ns name : String) :
    starMatch ("ip_" ++ m ++ "_" : String).data ("" : String).data
      ("ip_" ++ m ++ "_" ++ ns ++ "_" ++ name).data = true := by
  have hd : ("ip_" ++ m ++ "_" ++ ns ++ "_" ++ name).data
      = ("ip_" ++ m ++ "_" : String).data ++ (ns.data ++ '_' :: name.data) := by
    have h1 : ("ip_" : String).data = ['i', 'p', '_'] := rfl
    have h2 : ("_" : String).data = ['_'] := rfl
    simp [data_append, h1, h2]
  rw [hd, show ("" : String).data = [] from rfl]
  exact prefix_pattern_matches _ _

theorem hasMeta_ident_suffix (ns name : String)
    (hns : hasMeta ns.data = false) (hnm : hasMeta name.data = false) :
    hasMeta ("_" ++ ns ++ "_" ++ name).data = false := by
  rw [ident_suffix_data]
  simp only [hasMeta, List.any_cons, List.any_append] at hns hnm ⊢
  simp [hns, hnm]

theorem findCore_not_single (fs : FS) (pre suf : String)
    (hpre : hasMeta pre.data = false) (hsuf : hasMeta suf.data = false)
    (h : ∀ f, globFiles fs pre suf ≠ [f]) :
    findCore fs pre suf = Except.ok "" := by
  rw [findCore, hpre, hsuf]
  simp only [Bool.or_self, Bool.false_eq_true, if_false]

theorem findCore_single_malformed (fs : FS) (pre suf f : String)
    (hpre : hasMeta pre.data = false) (hsuf : hasMeta suf.data = false)
    (hg : globFiles fs pre suf = [f]) (hcnt : countU f ≠ 3) :
    findCore fs pre suf = Except.ok "" := by
  rw [findCore, hpre, hsuf]
  simp only [Bool.or_self, Bool.false_eq_true, if_false]
  rw [hg]
  simp [hcnt]

theorem findCore_single_wellformed (fs : FS) (pre suf f : String)
    (hpre : hasMeta pre.data = false) (hsuf : hasMeta suf.data = false)
    (hg : globFiles fs pre suf = [f]) (hcnt : countU f = 3) :
    findCore fs pre suf = Except.ok f := by
  rw [findCore, hpre, hsuf]
  simp only [Bool.or_self, Bool.false_eq_true, if_false]
  rw [hg]
  simp [hcnt]

/-- C7: for identities free of glob metacharacters, whenever the identity
glob pattern matches more than one file, or the single matched file name
does not have exactly three underscores (four `_`-delimited components),
both `findPodFileName`s return no error and the empty name, and the
lookups (`hasReservedMAC` / `HasReservedIP`) report "not found" without an
error — malformed or ambiguous on-disk state never fails a lookup. -/
theorem findPodFileName_malformed_not_error :
    (∀ (fs : FS) (ns name : String),
      ns ≠ "" → name ≠ "" → hasMeta ns.data = false → hasMeta name.data = false →
      1 < (globFiles fs "mac_" ("_" ++ ns ++ "_" ++ name)).length →
      Bridge.findPodFileName fs "" ns name = Except.ok "" ∧
      Bridge.hasReservedMAC fs ns name = Except.ok none)
  ∧ (∀ (fs : FS) (ns name f : String),
      ns ≠ "" → name ≠ "" → hasMeta ns.data = false → hasMeta name.data = false →
      globFiles fs "mac_" ("_" ++ ns ++ "_" ++ name) = [f] → countU f ≠ 3 →
      Bridge.findPodFileName fs "" ns name = Except.ok "" ∧
      Bridge.hasReservedMAC fs ns name = Except.ok none)
  ∧ (∀ (fs : FS) (ns name : String),
      ns ≠ "" → name ≠ "" → hasMeta ns.data = false → hasMeta name.data = false →
      1 < (globFiles fs "ip_" ("_" ++ ns ++ "_" ++ name)).length →
      Disk.findPodFileName fs "" ns name = Except.ok "" ∧
      Disk.HasReservedIP fs ns name = (false, none))
  ∧ (∀ (fs : FS) (ns name f : String),
      ns ≠ "" → name ≠ "" → hasMeta ns.data = false → hasMeta name.data = false →
      globFiles fs "ip_" ("_" ++ ns ++ "_" ++ name) = [f] → countU f ≠ 3 →
      Disk.findPodFileName fs "" ns name = Except.ok "" ∧
      Disk.HasReservedIP fs ns name = (false, none)) := by
  refine ⟨?_, ?_, ?_, ?_⟩
  · intro fs ns name hns0 hnm0 hmns hmnm hlen
    have hnseq : (ns == "") = false := by simpa using hns0
    have hnmeq : (name == "") = false := by simpa using hnm0
    have hsuf := hasMeta_ident_suffix ns name hmns hmnm
    have hfind : Bridge.findPodFileName fs "" ns name = Except.ok "" := by
      rw [Bridge.findPodFileName]
      simp only [show (("" : String) == "") = true from rfl, Bool.not_true,
        Bool.false_eq_true, if_false, hnseq, hnmeq, Bool.not_false, Bool.and_self, if_true]
      exact findCore_not_single fs _ _ rfl hsuf
        (fun f hf => by rw [hf] at hlen; simp at hlen)
    refine ⟨hfind, ?_⟩
    rw [Bridge.hasReservedMAC]
    simp [hnmeq, hfind]
  · intro fs ns name f hns0 hnm0 hmns hmnm hg hcnt
    have hnseq : (ns == "") = false := by simpa using hns0
    have hnmeq : (name == "") = false := by simpa using hnm0
    have hsuf := hasMeta_ident_suffix ns name hmns hmnm
    have hfind : Bridge.findPodFileName fs "" ns name = Except.ok "" := by
      rw [Bridge.findPodFileName]
      simp only [show (("" : String) == "") = true from rfl, Bool.not_true,
        Bool.false_eq_true, if_false, hnseq, hnmeq, Bool.not_false, Bool.and_self, if_true]
      exact findCore_single_malformed fs _ _ f rfl hsuf hg hcnt
    refine ⟨hfind, ?_⟩
    rw [Bridge.hasReservedMAC]
    simp [hnmeq, hfind]
  · intro fs ns name hns0 hnm0 hmns hmnm hlen
    have hnseq : (ns == "") = false := by simpa using hns0
    have hnmeq : (name == "") = false := by simpa using hnm0
    have hsuf := hasMeta_ident_suffix ns name hmns hmnm
    have hfind : Disk.findPodFileName fs "" ns name = Except.ok "" := by
      rw [Disk.findPodFileName]
      simp only [show (("" : String) == "") = true from rfl, Bool.not_true,
        Bool.false_eq_true, if_false, hnseq, hnmeq, Bool.not_false, Bool.and_self, if_true]
      exact findCore_not_single fs _ _ rfl hsuf
        (fun f hf => by rw [hf] at hlen; simp at hlen)
    refine ⟨hfind, ?_⟩
    rw [Disk.HasReservedIP]
    simp [hnmeq, hfind]
  · intro fs ns name f hns0 hnm0 hmns hmnm hg hcnt
    have hnseq : (ns == "") = false := by simpa using hns0
    have hnmeq : (name == "") = false := by simpa using hnm0
    have hsuf := hasMeta_ident_suffix ns name hmns hmnm
    have hfind : Disk.findPodFileName fs "" ns name = Except.ok "" := by
      rw [Disk.findPodFileName]
      simp only [show (("" : String) == "") = true from rfl, Bool.not_true,
        Bool.false_eq_true, if_false, hnseq, hnmeq, Bool.not_false, Bool.and_self, if_true]
      exact findCore_single_malformed fs _ _ f rfl hsuf hg hcnt
    refine ⟨hfind, ?_⟩
    rw [Disk.HasReservedIP]
    simp [hnmeq, hfind]

/-- Witness for `findPodFileName_malformed_not_error`: two competing
mapping files for one identity, and a file with a fifth component, are
both treated as "not found" with no error. -/
theorem findPodFileName_malformed_not_error_witness :
    (Bridge.findPodFileName
        [("mac_aa-bb_ns1_pod1", ""), ("mac_cc-dd_ns1_pod1", "")] "" "ns1" "pod1"
      = Except.ok "" ∧
     Bridge.hasReservedMAC
        [("mac_aa-bb_ns1_pod1", ""), ("mac_cc-dd_ns1_pod1", "")] "ns1" "pod1"
      = Except.ok none) ∧
    (Disk.findPodFileName [("ip_10.0.0.1_x_ns1_pod1", "")] "" "ns1" "pod1"
      = Except.ok "" ∧
     Disk.HasReservedIP [("ip_10.0.0.1_x_ns1_pod1", "")] "ns1" "pod1"
      = (false, none)) :=
  ⟨findPodFileName_malformed_not_error.1
      [("mac_aa-bb_ns1_pod1", ""), ("mac_cc-dd_ns1_pod1", "")] "ns1" "pod1"
      (by decide) (by decide) (by decide) (by decide) (by decide),
   findPodFileName_malformed_not_error.2.2.2
      [("ip_10.0.0.1_x_ns1_pod1", "")] "ns1" "pod1" "ip_10.0.0.1_x_ns1_pod1"
      (by decide) (by decide) (by decide) (by decide) (by decide) (by decide)⟩

/-! ## Lookup after a sticky bind -/

theorem globFiles_nil_of_no (fs : FS) (pre suf : String)
    (h : ∀ e ∈ fs, starMatch pre.data suf.data e.1.data = false) :
    globFiles fs pre suf = [] := by
  rw [globFiles, List.map_eq_nil]
  exact List.filter_eq_nil.mpr (fun e he => by rw [h e he]; exact Bool.false_ne_true)

theorem globFiles_single_entry (k v pre suf : String)
    (h : starMatch pre.data suf.data k.data = true) :
    globFiles [(k, v)] pre suf = [k] := by
  simp [globFiles, List.filter, h]

theorem bridge_lookup_of_glob (fs2 : FS) (mac ns name : String)
    (hns0 : ns ≠ "") (hnm0 : name ≠ "")
    (hmns : hasMeta ns.data = false) (hmnm : hasMeta name.data = false)
    (hcns : ns.data.count '_' = 0) (hcnm : name.data.count '_' = 0)
    (hcd : (dashed mac).data.count '_' = 0)
    (hparse : parseMAC (dashed mac) = some mac)
    (hglob : globFiles fs2 "mac_" ("_" ++ ns ++ "_" ++ name)
        = ["mac_" ++ dashed mac ++ "_" ++ ns ++ "_" ++ name]) :
    Bridge.hasReservedMAC fs2 ns name = Except.ok (some mac) := by
  have hnseq : (ns == "") = false := by simpa using hns0
  have hnmeq : (name == "") = false := by simpa using hnm0
  have hsuf := hasMeta_ident_suffix ns name hmns hmnm
  have hcount : countU ("mac_" ++ dashed mac ++ "_" ++ ns ++ "_" ++ name) = 3 := by
    rw [countU, bridge_target_data]
    exact count_joined _ _ _ _ (by decide) hcd hcns hcnm
  have hfind2 : Bridge.findPodFileName fs2 "" ns name
      = Except.ok ("mac_" ++ dashed mac ++ "_" ++ ns ++ "_" ++ name) := by
    rw [Bridge.findPodFileName]
    simp only [show (("" : String) == "") = true from rfl, Bool.not_true,
      Bool.false_eq_true, if_false, hnseq, hnmeq, Bool.not_false, Bool.and_self, if_true]
    exact findCore_single_wellformed fs2 _ _ _ rfl hsuf hglob hcount
  have hsplit : splitChar '_' ("mac_" ++ dashed mac ++ "_" ++ ns ++ "_" ++ name).data
      = [("mac" : String).data, (dashed mac).data, ns.data, name.data] := by
    rw [bridge_target_data]
    exact splitChar_joined _ _ _ _ (by decide) hcd hcns hcnm
  have hresolve : Bridge.resolvePodFileName
      ("mac_" ++ dashed mac ++ "_" ++ ns ++ "_" ++ name) = (dashed mac, ns, name) := by
    rw [Bridge.resolvePodFileName, hsplit]
    rfl
  have hTne : (("mac_" ++ dashed mac ++ "_" ++ ns ++ "_" ++ name) == "") = false := by
    rw [beq_eq_false_iff_ne]
    intro hh
    have hd := bridge_target_data (dashed mac) ns name
    rw [hh] at hd
    simp at hd
  rw [Bridge.hasReservedMAC]
  simp only [hnmeq, Bool.false_eq_true, if_false]
  rw [hfind2]
  simp only [hTne, Bool.not_false, if_true, hresolve, beq_self_eq_true, Bool.and_self, hparse]

theorem disk_lookup_of_glob (fs2 : FS) (ip ns name : String)
    (hns0 : ns ≠ "") (hnm0 : name ≠ "")
    (hmns : hasMeta ns.data = false) (hmnm : hasMeta name.data = false)
    (hcns : ns.data.count '_' = 0) (hcnm : name.data.count '_' = 0)
    (hcip : ip.data.count '_' = 0)
    (hparse : parseIP ip = some ip)
    (hglob : globFiles fs2 "ip_" ("_" ++ ns ++ "_" ++ name)
        = ["ip_" ++ ip ++ "_" ++ ns ++ "_" ++ name]) :
    Disk.HasReservedIP fs2 ns name = (true, some ip) := by
  have hnseq : (ns == "") = false := by simpa using hns0
  have hnmeq : (name == "") = false := by simpa using hnm0
  have hsuf := hasMeta_ident_suffix ns name hmns hmnm
  have hcount : countU ("ip_" ++ ip ++ "_" ++ ns ++ "_" ++ name) = 3 := by
    rw [countU, disk_target_data]
    exact count_joined _ _ _ _ (by decide) hcip hcns hcnm
  have hfind2 : Disk.findPodFileName fs2 "" ns name
      = Except.ok ("ip_" ++ ip ++ "_" ++ ns ++ "_" ++ name) := by
    rw [Disk.findPodFileName]
    simp only [show (("" : String) == "") = true from rfl, Bool.not_true,
      Bool.false_eq_true, if_false, hnseq, hnmeq, Bool.not_false, Bool.and_self, if_true]
    exact findCore_single_wellformed fs2 _ _ _ rfl hsuf hglob hcount
  have hsplit : splitChar '_' ("ip_" ++ ip ++ "_" ++ ns ++ "_" ++ name).data
      = [("ip" : String).data, ip.data, ns.data, name.data] := by
    rw [disk_target_data]
    exact splitChar_joined _ _ _ _ (by decide) hcip hcns hcnm
  have hresolve : Disk.resolvePodFileName
      ("ip_" ++ ip ++ "_" ++ ns ++ "_" ++ name) = (ip, ns, name) := by
    rw [Disk.resolvePodFileName, hsplit]
    rfl
  have hTne : (("ip_" ++ ip ++ "_" ++ ns ++ "_" ++ name) == "") = false := by
    rw [beq_eq_false_iff_ne]
    intro hh
    have hd := disk_target_data ip ns name
    rw [hh] at hd
    simp at hd
  rw [Disk.HasReservedIP]
  simp only [hnmeq, Bool.false_eq_true, if_false]
  rw [hfind2]
  simp only [hTne, Bool.not_false, if_true, hresolve, beq_self_eq_true, Bool.and_self, hparse]

/-- Counterexample to the unrestricted bind/lookup claim: (1) in the IP
store the rename is keyed by the *address* (`ip_<ip>_*`), not the
identity, so binding a different address for an identity that already has
a mapping file leaves two mapping files for that identity; (2) an identity
containing `_` breaks the four-component file-name encoding, so a bind is
not found again. -/
theorem reservePodInfo_counterexample :
    (globFiles (Disk.ReservePodInfo [("ip_10.0.0.1_ns1_pod1", "")]
        "cid" "eth0" "10.0.0.2" "ns1" "pod1" false).2
      "ip_" ("_" ++ "ns1" ++ "_" ++ "pod1")).length = 2 ∧
    Bridge.hasReservedMAC
        (Bridge.reservePodInfo [] "aa:bb:cc:dd:ee:ff" "a_b" "pod1").2 "a_b" "pod1"
      = Except.ok none := by
  constructor
  · rfl
  · rfl

/-- C4 (amended): for identities and addresses whose components are free
of `_` and glob metacharacters (true of all real pod namespaces/names,
MAC and IP texts): (1) a fresh MAC bind followed by lookup returns the
bound address; (2) binding a *different* MAC for an identity whose single
well-formed mapping file exists renames it — exactly one mapping file
remains and lookup returns the new address; (3) a fresh IP bind followed
by lookup returns the bound address. In the IP store the rename is keyed
by address, not identity, so the exactly-one-file guarantee holds only
for the MAC store (see the counterexample). -/
theorem reservePodInfo_bind_lookup :
    (∀ (fs : FS) (mac ns name : String),
      ns ≠ "" → name ≠ "" → mac ≠ "" →
      hasMeta ns.data = false → hasMeta name.data = false →
      ns.data.count '_' = 0 → name.data.count '_' = 0 →
      (dashed mac).data.count '_' = 0 →
      parseMAC (dashed mac) = some mac →
      globFiles fs "mac_" ("_" ++ ns ++ "_" ++ name) = [] →
      Bridge.reservePodInfo fs mac ns name
        = (Except.ok true, fs ++ [("mac_" ++ dashed mac ++ "_" ++ ns ++ "_" ++ name, "")]) ∧
      globFiles (fs ++ [("mac_" ++ dashed mac ++ "_" ++ ns ++ "_" ++ name, "")])
          "mac_" ("_" ++ ns ++ "_" ++ name)
        = ["mac_" ++ dashed mac ++ "_" ++ ns ++ "_" ++ name] ∧
      Bridge.hasReservedMAC (fs ++ [("mac_" ++ dashed mac ++ "_" ++ ns ++ "_" ++ name, "")])
          ns name = Except.ok (some mac))
  ∧ (∀ (fs : FS) (mac2 ns name m0 : String),
      ns ≠ "" → name ≠ "" → mac2 ≠ "" →
      hasMeta ns.data = false → hasMeta name.data = false →
      ns.data.count '_' = 0 → name.data.count '_' = 0 →
      (dashed mac2).data.count '_' = 0 →
      parseMAC (dashed mac2) = some mac2 →
      globFiles fs "mac_" ("_" ++ ns ++ "_" ++ name) = [m0] →
      countU m0 = 3 →
      ("mac_" ++ dashed mac2 ++ "_" ++ ns ++ "_" ++ name) ≠ m0 →
      Bridge.reservePodInfo fs mac2 ns name
        = (Except.ok true,
           fsRename fs m0 ("mac_" ++ dashed mac2 ++ "_" ++ ns ++ "_" ++ name)) ∧
      globFiles (fsRename fs m0 ("mac_" ++ dashed mac2 ++ "_" ++ ns ++ "_" ++ name))
          "mac_" ("_" ++ ns ++ "_" ++ name)
        = ["mac_" ++ dashed mac2 ++ "_" ++ ns ++ "_" ++ name] ∧
      Bridge.hasReservedMAC
          (fsRename fs m0 ("mac_" ++ dashed mac2 ++ "_" ++ ns ++ "_" ++ name))
          ns name = Except.ok (some mac2))
  ∧ (∀ (fs : FS) (id ifname ip ns name : String),
      ns ≠ "" → name ≠ "" → ip ≠ "" →
      hasMeta ns.data = false → hasMeta name.data = false → hasMeta ip.data = false →
      ns.data.count '_' = 0 → name.data.count '_' = 0 → ip.data.count '_' = 0 →
      parseIP ip = some ip →
      globFiles fs ("ip_" ++ ip ++ "_") "" = [] →
      globFiles fs "ip_" ("_" ++ ns ++ "_" ++ name) = [] →
      Disk.ReservePodInfo fs id ifname ip ns name false
        = (Except.ok true, fs ++ [("ip_" ++ ip ++ "_" ++ ns ++ "_" ++ name, "")]) ∧
      Disk.HasReservedIP (fs ++ [("ip_" ++ ip ++ "_" ++ ns ++ "_" ++ name, "")]) ns name
        = (true, some ip)) := by
  refine ⟨?_, ?_, ?_⟩
  · intro fs mac ns name hns0 hnm0 hmac0 hmns hmnm hcns hcnm hcd hparse hempty
    have hnseq : (ns == "") = false := by simpa using hns0
    have hnmeq : (name == "") = false := by simpa using hnm0
    have hmaceq : (mac == "") = false := by simpa using hmac0
    have hsuf := hasMeta_ident_suffix ns name hmns hmnm
    have hfind : Bridge.findPodFileName fs "" ns name = Except.ok "" := by
      rw [Bridge.findPodFileName]
      simp only [show (("" : String) == "") = true from rfl, Bool.not_true,
        Bool.false_eq_true, if_false, hnseq, hnmeq, Bool.not_false, Bool.and_self, if_true]
      exact findCore_not_single fs _ _ rfl hsuf
        (fun f hf => by rw [hempty] at hf; simp at hf)
    have hpf : Bridge.podFileName mac ns name
        = "mac_" ++ dashed mac ++ "_" ++ ns ++ "_" ++ name := by
      rw [Bridge.podFileName]
      simp [hmaceq, hnseq]
    have hTmatch := bridge_target_matches (dashed mac) ns name
    have habs : ∀ e ∈ fs,
        (e.1 == ("mac_" ++ dashed mac ++ "_" ++ ns ++ "_" ++ name)) = false := by
      intro e he
      by_contra hb
      rw [Bool.not_eq_false] at hb
      have heq : e.1 = "mac_" ++ dashed mac ++ "_" ++ ns ++ "_" ++ name := by simpa using hb
      have hno := globFiles_nil_filter fs _ _ hempty e he
      rw [heq, hTmatch] at hno
      cases hno
    have hset := fsSet_append_absent fs _ "" habs
    have hres : Bridge.reservePodInfo fs mac ns name
        = (Except.ok true,
           fs ++ [("mac_" ++ dashed mac ++ "_" ++ ns ++ "_" ++ name, "")]) := by
      rw [Bridge.reservePodInfo]
      simp only [hnmeq, hmaceq, Bool.false_eq_true, if_false]
      rw [hfind]
      simp only [show (("" : String) == "") = true from rfl, Bool.not_true,
        Bool.false_and, Bool.false_eq_true, if_false, hpf, hset]
    have hglob2 : globFiles
        (fs ++ [("mac_" ++ dashed mac ++ "_" ++ ns ++ "_" ++ name, "")])
        "mac_" ("_" ++ ns ++ "_" ++ name)
        = ["mac_" ++ dashed mac ++ "_" ++ ns ++ "_" ++ name] := by
      rw [globFiles_append, hempty, globFiles_single_entry _ _ _ _ hTmatch]
      rfl
    exact ⟨hres, hglob2,
      bridge_lookup_of_glob _ mac ns name hns0 hnm0 hmns hmnm hcns hcnm hcd hparse hglob2⟩
  · intro fs mac2 ns name m0 hns0 hnm0 hmac0 hmns hmnm hcns hcnm hcd hparse hone hm0cnt hneq
    have hnseq : (ns == "") = false := by simpa using hns0
    have hnmeq : (name == "") = false := by simpa using hnm0
    have hmaceq : (mac2 == "") = false := by simpa using hmac0
    have hsuf := hasMeta_ident_suffix ns name hmns hmnm
    have hfind : Bridge.findPodFileName fs "" ns name = Except.ok m0 := by
      rw [Bridge.findPodFileName]
      simp only [show (("" : String) == "") = true from rfl, Bool.not_true,
        Bool.false_eq_true, if_false, hnseq, hnmeq, Bool.not_false, Bool.and_self, if_true]
      exact findCore_single_wellformed fs _ _ m0 rfl hsuf hone hm0cnt
    have hm0ne : (m0 == "") = false := by
      rw [beq_eq_false_iff_ne]
      intro hh
      rw [hh] at hm0cnt
      simp [countU] at hm0cnt
    have hpf : Bridge.podFileName mac2 ns name
        = "mac_" ++ dashed mac2 ++ "_" ++ ns ++ "_" ++ name := by
      rw [Bridge.podFileName]
      simp [hmaceq, hnseq]
    have hT2m0 : (("mac_" ++ dashed mac2 ++ "_" ++ ns ++ "_" ++ name) == m0) = false :=
      beq_eq_false_iff_ne.mpr hneq
    have hres : Bridge.reservePodInfo fs mac2 ns name
        = (Except.ok true,
           fsRename fs m0 ("mac_" ++ dashed mac2 ++ "_" ++ ns ++ "_" ++ name)) := by
      rw [Bridge.reservePodInfo]
      simp only [hnmeq, hmaceq, Bool.false_eq_true, if_false]
      rw [hfind]
      simp only [hpf, hm0ne, hT2m0, Bool.not_false, Bool.and_self, if_true]
    obtain ⟨e0, hfe, he0key⟩ :=
      globFiles_singleton_filter fs "mac_" ("_" ++ ns ++ "_" ++ name) m0 hone
    have hRno : ∀ e ∈ fsRemove fs m0,
        starMatch ("mac_" : String).data ("_" ++ ns ++ "_" ++ name).data e.1.data
          = false := by
      intro e heR
      rcases List.mem_filter.mp heR with ⟨hefs, hkey⟩
      by_contra hb
      rw [Bool.not_eq_false] at hb
      have hmemf : e ∈ fs.filter
          (fun e => starMatch ("mac_" : String).data
            ("_" ++ ns ++ "_" ++ name).data e.1.data) :=
        List.mem_filter.mpr ⟨hefs, hb⟩
      rw [hfe] at hmemf
      have he0 : e = e0 := by simpa using hmemf
      rw [he0, he0key] at hkey
      simp at hkey
    have habs : ∀ e ∈ fsRemove fs m0,
        (e.1 == ("mac_" ++ dashed mac2 ++ "_" ++ ns ++ "_" ++ name)) = false := by
      intro e heR
      by_contra hb
      rw [Bool.not_eq_false] at hb
      have heq : e.1 = "mac_" ++ dashed mac2 ++ "_" ++ ns ++ "_" ++ name := by simpa using hb
      have hno := hRno e heR
      rw [heq, bridge_target_matches] at hno
      cases hno
    have hglobR : globFiles (fsRemove fs m0) "mac_" ("_" ++ ns ++ "_" ++ name) = [] :=
      globFiles_nil_of_no _ _ _ hRno
    have hren : fsRename fs m0 ("mac_" ++ dashed mac2 ++ "_" ++ ns ++ "_" ++ name)
        = fsRemove fs m0
          ++ [("mac_" ++ dashed mac2 ++ "_" ++ ns ++ "_" ++ name,
              (fsGet fs m0).getD "")] := by
      rw [fsRename]
      exact fsSet_append_absent _ _ _ habs
    have hglob2 : globFiles
        (fsRename fs m0 ("mac_" ++ dashed mac2 ++ "_" ++ ns ++ "_" ++ name))
        "mac_" ("_" ++ ns ++ "_" ++ name)
        = ["mac_" ++ dashed mac2 ++ "_" ++ ns ++ "_" ++ name] := by
      rw [hren, globFiles_append, hglobR,
        globFiles_single_entry _ _ _ _ (bridge_target_matches (dashed mac2) ns name)]
      rfl
    exact ⟨hres, hglob2,
      bridge_lookup_of_glob _ mac2 ns name hns0 hnm0 hmns hmnm hcns hcnm hcd hparse hglob2⟩
  · intro fs id ifname ip ns name hns0 hnm0 hip0 hmns hmnm hmip hcns hcnm hcip hparse haddr hident
    have hnseq : (ns == "") = false := by simpa using hns0
    have hnmeq : (name == "") = false := by simpa using hnm0
    have hipeq : (ip == "") = false := by simpa using hip0
    have hpre : hasMeta ("ip_" ++ ip ++ "_" : String).data = false := by
      have hd : ("ip_" ++ ip ++ "_" : String).data
          = ("ip_" : String).data ++ (ip.data ++ ("_" : String).data) := by
        simp [data_append]
      rw [hd, hasMeta_append, hasMeta_append, hmip]
      rfl
    have hfindip : Disk.findPodFileName fs ip "" "" = Except.ok "" := by
      rw [Disk.findPodFileName]
      simp only [hipeq, Bool.not_false, if_true]
      exact findCore_not_single fs _ _ hpre rfl
        (fun f hf => by rw [haddr] at hf; simp at hf)
    have hpf : Disk.podFileName ip ns name
        = "ip_" ++ ip ++ "_" ++ ns ++ "_" ++ name := by
      rw [Disk.podFileName]
      simp [hipeq, hnseq]
    have habs : ∀ e ∈ fs,
        (e.1 == ("ip_" ++ ip ++ "_" ++ ns ++ "_" ++ name)) = false := by
      intro e he
      by_contra hb
      rw [Bool.not_eq_false] at hb
      have heq : e.1 = "ip_" ++ ip ++ "_" ++ ns ++ "_" ++ name := by simpa using hb
      have hno := globFiles_nil_filter fs _ _ haddr e he
      rw [heq, disk_addr_pattern_matches] at hno
      cases hno
    have hset := fsSet_append_absent fs _ "" habs
    have hres : Disk.ReservePodInfo fs id ifname ip ns name false
        = (Except.ok true, fs ++ [("ip_" ++ ip ++ "_" ++ ns ++ "_" ++ name, "")]) := by
      rw [Disk.ReservePodInfo]
      simp only [Bool.false_eq_true, if_false, hnmeq, Bool.not_false, if_true]
      rw [hfindip]
      simp only [show (("" : String) == "") = true from rfl, Bool.not_true,
        Bool.false_eq_true, if_false, hpf, hset]
    have hglob2 : globFiles (fs ++ [("ip_" ++ ip ++ "_" ++ ns ++ "_" ++ name, "")])
        "ip_" ("_" ++ ns ++ "_" ++ name)
        = ["ip_" ++ ip ++ "_" ++ ns ++ "_" ++ name] := by
      rw [globFiles_append, hident,
        globFiles_single_entry _ _ _ _ (disk_target_matches ip ns name)]
      rfl
    exact ⟨hres,
      disk_lookup_of_glob _ ip ns name hns0 hnm0 hmns hmnm hcns hcnm hcip hparse hglob2⟩

/-- Witness for `reservePodInfo_bind_lookup`: rebinding an identity's MAC
renames the old mapping file and the lookup returns the new address. -/
theorem reservePodInfo_bind_lookup_witness :
    Bridge.hasReservedMAC
      (fsRename [("mac_aa-aa-aa-aa-aa-aa_ns1_pod1", "")]
        "mac_aa-aa-aa-aa-aa-aa_ns1_pod1"
        ("mac_" ++ dashed "02:42:ac:11:00:02" ++ "_" ++ "ns1" ++ "_" ++ "pod1"))
      "ns1" "pod1" = Except.ok (some "02:42:ac:11:00:02") :=
  (reservePodInfo_bind_lookup.2.1 [("mac_aa-aa-aa-aa-aa-aa_ns1_pod1", "")]
    "02:42:ac:11:00:02" "ns1" "pod1" "mac_aa-aa-aa-aa-aa-aa_ns1_pod1"
    (by decide) (by decide) (by decide) (by decide) (by decide) (by decide)
    (by decide) (by decide) (by decide) (by decide) (by decide) (by decide)).2.2
